import Mathlib

/-!
Verification development for the neuroheart-hrv-api repository.

The Python source is shallowly embedded here:

* `EFloat` models the IEEE-style extended values (finite / +inf / -inf / NaN)
  that flow through the numpy/pandas pipeline.  Finite values are exact
  rationals; float rounding is not modelled (none of the verified properties
  depends on rounding, only on finiteness, NaN-skipping and ordering).
* `calculateIbi`, `resampleToWindows`, `process` embed app/hrv_processor.py.
* `cleanRRIntervals`, `extractAllFeatures`, `processWindows` embed
  app/hrv_features.py, with the external hrvanalysis functions kept opaque as
  an `ExternalHRV` parameter (the spec treats them as an external collaborator
  with a documented minimum-sample contract).
* `safeFloat`, `aggBuckets`, `summaryOf`, `computeOutput` embed
  app/analysis.py.
* `hourGroups`, `bestHrvHours`, `worstHrvHours`, `workweekDifficulty`,
  `createWeeklySummary` embed app/weekly_analyzer.py; the pandas
  `sort_values` call is embedded down to numpy's `aquicksort` (introsort with
  insertion sort below the SMALL_QUICKSORT = 15 threshold) composed with
  pandas' `nargsort` reversal trick for descending order, because tie-breaking
  behaviour of the rankings depends on it.
* `hourlyHrvForWindow` embeds app/routes/hrv_day.py.

Timestamps are modelled as natural numbers of seconds of local (display
timezone) time; label strftime formatting is abstracted to the bucket index.
-/

/-- Kernel-computable rational addition (Batteries marks Rat.add as
irreducible; this is the same operation through the mkRat smart
constructor, see qadd_eq_add). -/
def qadd (a b : ℚ) : ℚ := mkRat (a.num * b.den + b.num * a.den) (a.den * b.den)

/-- Kernel-computable rational subtraction. -/
def qsub (a b : ℚ) : ℚ := mkRat (a.num * b.den - b.num * a.den) (a.den * b.den)

/-- Kernel-computable rational multiplication. -/
def qmul (a b : ℚ) : ℚ := mkRat (a.num * b.num) (a.den * b.den)

/-- Kernel-computable rational inverse. -/
def qinv (a : ℚ) : ℚ := Rat.divInt a.den a.num

/-- Kernel-computable rational division. -/
def qdiv (a b : ℚ) : ℚ := qmul a (qinv b)

/-- Extended float value: exact finite rational, signed infinity, or NaN.
Mirrors the IEEE semantics used by numpy/pandas for the operations that the
pipeline performs. -/
inductive EFloat where
  | fin (q : ℚ)
  | pinf
  | ninf
  | nan
deriving DecidableEq, Repr, Inhabited

namespace EFloat

/-- Embeds pd.isna: true exactly on NaN (infinities are not NA in pandas). -/
def isna : EFloat → Bool
  | nan => true
  | _ => false

/-- IEEE addition on extended values. -/
def add : EFloat → EFloat → EFloat
  | nan, _ => nan
  | _, nan => nan
  | pinf, ninf => nan
  | ninf, pinf => nan
  | pinf, _ => pinf
  | _, pinf => pinf
  | ninf, _ => ninf
  | _, ninf => ninf
  | fin a, fin b => fin (qadd a b)

/-- IEEE negation. -/
def neg : EFloat → EFloat
  | nan => nan
  | pinf => ninf
  | ninf => pinf
  | fin a => fin (-a)

/-- IEEE subtraction. -/
def sub (a b : EFloat) : EFloat := add a (neg b)

/-- IEEE multiplication (0 times infinity is NaN). -/
def mul : EFloat → EFloat → EFloat
  | nan, _ => nan
  | _, nan => nan
  | pinf, pinf => pinf
  | pinf, ninf => ninf
  | ninf, pinf => ninf
  | ninf, ninf => pinf
  | pinf, fin b => if 0 < b then pinf else if b < 0 then ninf else nan
  | fin a, pinf => if 0 < a then pinf else if a < 0 then ninf else nan
  | ninf, fin b => if 0 < b then ninf else if b < 0 then pinf else nan
  | fin a, ninf => if 0 < a then ninf else if a < 0 then pinf else nan
  | fin a, fin b => fin (qmul a b)

/-- IEEE division; finite/0 gives a signed infinity (numpy emits a warning,
not an exception), 0/0 gives NaN, finite/inf gives 0, inf/inf gives NaN. -/
def div : EFloat → EFloat → EFloat
  | nan, _ => nan
  | _, nan => nan
  | pinf, pinf => nan
  | pinf, ninf => nan
  | ninf, pinf => nan
  | ninf, ninf => nan
  | fin _, pinf => fin 0
  | fin _, ninf => fin 0
  | pinf, fin b => if b < 0 then ninf else pinf
  | ninf, fin b => if b < 0 then pinf else ninf
  | fin a, fin b =>
    if b = 0 then (if a = 0 then nan else if 0 < a then pinf else ninf)
    else fin (qdiv a b)

/-- IEEE strict less-than: any comparison with NaN is false. -/
def lt : EFloat → EFloat → Bool
  | nan, _ => false
  | _, nan => false
  | ninf, ninf => false
  | ninf, _ => true
  | _, ninf => false
  | pinf, _ => false
  | fin _, pinf => true
  | fin a, fin b => decide (a < b)

end EFloat

/-- Decidable equality for Except results, so concrete pipeline outcomes
can be checked by evaluation. -/
instance {e a : Type} [DecidableEq e] [DecidableEq a] : DecidableEq (Except e a) :=
  fun x y =>
  match x, y with
  | .error u, .error v =>
    if h : u = v then .isTrue (by rw [h]) else .isFalse (by simp [h])
  | .ok u, .ok v =>
    if h : u = v then .isTrue (by rw [h]) else .isFalse (by simp [h])
  | .error _, .ok _ => .isFalse (by simp)
  | .ok _, .error _ => .isFalse (by simp)

/-- Sum as computed by pandas (left fold of IEEE addition from 0). -/
def sumE (l : List EFloat) : EFloat := l.foldl EFloat.add (.fin 0)

/-- Mean as computed by pandas with skipna=True: NaN entries are dropped,
an empty or all-NaN input yields NaN, and infinities propagate. -/
def meanE (l : List EFloat) : EFloat :=
  let vs := l.filter (fun v => !v.isna)
  if vs.length = 0 then .nan else EFloat.div (sumE vs) (.fin vs.length)

/-- Count as computed by pandas .count(): number of non-NA entries. -/
def countE (l : List EFloat) : ℕ := (l.filter (fun v => !v.isna)).length

/-- Minimum as computed by pandas .min(): NaN skipped, NaN when empty. -/
def minE (l : List EFloat) : EFloat :=
  match l.filter (fun v => !v.isna) with
  | [] => .nan
  | v :: vs => vs.foldl (fun a b => if EFloat.lt b a then b else a) v

/-- Maximum as computed by pandas .max(): NaN skipped, NaN when empty. -/
def maxE (l : List EFloat) : EFloat :=
  match l.filter (fun v => !v.isna) with
  | [] => .nan
  | v :: vs => vs.foldl (fun a b => if EFloat.lt a b then b else a) v

/-- Raw heart-rate sample: local-time timestamp in seconds and bpm value, as
returned by app/db.py get_heart_rate_data. -/
structure RawSample where
  t : ℕ
  bpm : ℚ
deriving DecidableEq, Repr, Inhabited

/-- Row of the DataFrame produced by HRVProcessor.calculate_ibi: timestamp,
bpm, delta_sec (NaN for the first row), and ibi_ms = 60000 / bpm, with
bpm == 0 giving +inf exactly as numpy float division does. -/
structure IBIRow where
  t : ℕ
  bpm : ℚ
  delta : EFloat
  ibi : EFloat
deriving DecidableEq, Repr, Inhabited

/-- Embeds HRVProcessor.calculate_ibi (app/hrv_processor.py lines 23-45):
elementwise transform adding delta_sec and ibi_ms columns; no filtering. -/
def calculateIbi (raw : List RawSample) : List IBIRow :=
  (List.range raw.length).map fun i =>
    let s := raw[i]!
    let d : EFloat :=
      match i with
      | 0 => .nan
      | j + 1 => .fin (qsub (s.t : ℚ) ((raw[j]!).t : ℚ))
    let v : EFloat := if s.bpm = 0 then .pinf else .fin (qdiv 60000 s.bpm)
    IBIRow.mk s.t s.bpm d v

/-- Calendar minute containing a timestamp (resample('1min') anchor). -/
def minuteOf (t : ℕ) : ℕ := t / 60

/-- The contiguous calendar-minute grid spanned by resample('1min'): every
minute from the minute of the earliest sample to the minute of the latest. -/
def gridMinutes (rows : List IBIRow) : List ℕ :=
  match rows with
  | [] => []
  | r :: rest =>
    let a := (rest.map fun x => minuteOf x.t).foldl Nat.min (minuteOf r.t)
    let b := (rest.map fun x => minuteOf x.t).foldl Nat.max (minuteOf r.t)
    List.range' a (b - a + 1)

/-- Per-minute row of df_1min: minute index, mean bpm, mean ibi_ms; minutes
with no source samples hold NaN in both columns. -/
structure MinuteRow where
  m : ℕ
  bpm : EFloat
  ibi : EFloat
deriving DecidableEq, Repr, Inhabited

/-- Embeds df[numeric_cols].resample('1min').mean()
(app/hrv_processor.py line 64). -/
def minuteRows (rows : List IBIRow) : List MinuteRow :=
  (gridMinutes rows).map fun m =>
    let here := rows.filter fun r => minuteOf r.t = m
    { m := m
      bpm := meanE (here.map fun r => .fin r.bpm)
      ibi := meanE (here.map fun r => r.ibi) }

/-- Last valid (non-NaN) entry strictly before position i, if any. -/
def findPrev (l : List (ℕ × EFloat)) (i : ℕ) : Option (ℕ × EFloat) :=
  ((l.take i).filter fun p => !p.2.isna).getLast?

/-- First valid (non-NaN) entry strictly after position i, if any. -/
def findNext (l : List (ℕ × EFloat)) (i : ℕ) : Option (ℕ × EFloat) :=
  ((l.drop (i + 1)).filter fun p => !p.2.isna).head?

/-- Linear interpolation between the two surrounding known points, weighted
by their actual timestamp (minute) positions, as np.interp computes it. -/
def interpVal (p q : ℕ × EFloat) (m : ℕ) : EFloat :=
  EFloat.add p.2
    (EFloat.mul
      (EFloat.div (EFloat.sub q.2 p.2) (.fin (qsub (q.1 : ℚ) (p.1 : ℚ))))
      (.fin (qsub (m : ℚ) (p.1 : ℚ))))

/-- Embeds Series.interpolate(method='time') on the 1-minute grid
(app/hrv_processor.py line 67) with pandas' default limit_direction
'forward': interior NaN runs are filled by time-weighted interpolation,
NaNs before the first valid entry are left NaN, and NaNs after the last
valid entry are filled with the last valid value (np.interp clamps at the
boundary and forward filling keeps that value). -/
def interpolateIbi (l : List (ℕ × EFloat)) : List (ℕ × EFloat) :=
  (List.range l.length).map fun i =>
    let p := l[i]!
    if p.2.isna then
      match findPrev l i, findNext l i with
      | some a, some b => (p.1, interpVal a b p.1)
      | some a, none => (p.1, a.2)
      | none, _ => (p.1, p.2)
    else p

/-- Analysis window as produced by resample_to_windows: window start time in
seconds, mean of per-minute bpm means, and the list of per-minute ibi values
carried to feature extraction. -/
structure HrvWindow where
  t : ℕ
  bpm_mean : EFloat
  ibi : List EFloat
deriving DecidableEq, Repr, Inhabited

/-- Merged per-minute triple (minute, bpm mean, interpolated ibi). -/
def mergedMinutes (rows : List IBIRow) : List (ℕ × EFloat × EFloat) :=
  let mins := minuteRows rows
  let ibiCol := interpolateIbi (mins.map fun r => (r.m, r.ibi))
  (mins.zip ibiCol).map fun pr => (pr.1.m, pr.1.bpm, pr.2.2)

/-- Embeds HRVProcessor.resample_to_windows (app/hrv_processor.py lines
47-88): 1-minute resample, time interpolation of ibi_ms only, 15-minute
window aggregation (bpm mean, ibi list), removal of windows with empty ibi
lists, and then removal of NaN entries from the surviving lists -- in that
order, exactly as in the source. -/
def resampleToWindows (rows : List IBIRow) : List HrvWindow :=
  let merged := mergedMinutes rows
  let keys := (merged.map fun r => r.1 / 15).dedup
  let ws := keys.map fun k =>
    let grp := merged.filter fun r => r.1 / 15 = k
    HrvWindow.mk (k * 900) (meanE (grp.map fun r => r.2.1)) (grp.map fun r => r.2.2)
  let ws2 := ws.filter fun w => w.ibi.length > 0
  ws2.map fun w => { w with ibi := w.ibi.filter fun v => !v.isna }

/-- Embeds HRVProcessor.process (app/hrv_processor.py lines 90-106). -/
def process (raw : List RawSample) : List HrvWindow :=
  resampleToWindows (calculateIbi raw)

/-- Time-domain feature map returned by hrvanalysis get_time_domain_features
(field set as in HRVFeatureExtractor._empty_time_features). -/
structure TimeFeatures where
  mean_nni : EFloat
  sdnn : EFloat
  sdsd : EFloat
  rmssd : EFloat
  median_nni : EFloat
  nni_50 : EFloat
  pnni_50 : EFloat
  nni_20 : EFloat
  pnni_20 : EFloat
  range_nni : EFloat
  cvsd : EFloat
  cvnni : EFloat
  mean_hr : EFloat
  max_hr : EFloat
  min_hr : EFloat
  std_hr : EFloat
deriving DecidableEq, Repr, Inhabited

/-- Frequency-domain feature map; lf_hf models the lf_hf_ratio key. -/
structure FreqFeatures where
  lf : EFloat
  hf : EFloat
  lf_hf : EFloat
  lfnu : EFloat
  hfnu : EFloat
  total_power : EFloat
  vlf : EFloat
deriving DecidableEq, Repr, Inhabited

/-- Non-linear (Poincare) feature map. -/
structure NonlinearFeatures where
  sd1 : EFloat
  sd2 : EFloat
  ratio_sd2_sd1 : EFloat
deriving DecidableEq, Repr, Inhabited

/-- Embeds HRVFeatureExtractor._empty_time_features: all-NaN map. -/
def emptyTimeFeatures : TimeFeatures :=
  TimeFeatures.mk .nan .nan .nan .nan .nan .nan .nan .nan .nan .nan .nan .nan
    .nan .nan .nan .nan

/-- Embeds HRVFeatureExtractor._empty_frequency_features: all-NaN map. -/
def emptyFreqFeatures : FreqFeatures :=
  FreqFeatures.mk .nan .nan .nan .nan .nan .nan .nan

/-- Embeds HRVFeatureExtractor._empty_nonlinear_features: all-NaN map. -/
def emptyNonlinearFeatures : NonlinearFeatures :=
  NonlinearFeatures.mk .nan .nan .nan

/-- External hrvanalysis collaborator, kept opaque: the spec treats HRV
feature computation as an external capability, so the repository code is
verified for every possible behaviour of these functions. -/
structure ExternalHRV where
  getTimeDomainFeatures : List EFloat → TimeFeatures
  getFrequencyDomainFeatures : List EFloat → FreqFeatures
  getPoincarePlotFeatures : List EFloat → NonlinearFeatures
  removeOutliers : List EFloat → List EFloat
  removeEctopicBeats : List EFloat → List EFloat

/-- Embeds HRVFeatureExtractor.clean_rr_intervals (app/hrv_features.py lines
32-62): lists shorter than 10 are returned unchanged; otherwise outliers are
removed when the flag is set, and ectopic-beat removal runs only if at least
10 values remain. -/
def cleanRRIntervals (ext : ExternalHRV) (removeOutliersFlag : Bool)
    (rr : List EFloat) : List EFloat :=
  if rr.length < 10 then rr
  else
    let rrClean := if removeOutliersFlag then ext.removeOutliers rr else rr
    if 10 ≤ rrClean.length then ext.removeEctopicBeats rrClean else rrClean

/-- Embeds HRVFeatureExtractor.extract_time_domain (lines 64-82). -/
def extractTimeDomain (ext : ExternalHRV) (rr : List EFloat) : TimeFeatures :=
  if rr.length < 2 then emptyTimeFeatures else ext.getTimeDomainFeatures rr

/-- Embeds HRVFeatureExtractor.extract_frequency_domain (lines 84-102). -/
def extractFrequencyDomain (ext : ExternalHRV) (rr : List EFloat) : FreqFeatures :=
  if rr.length < 10 then emptyFreqFeatures else ext.getFrequencyDomainFeatures rr

/-- Embeds HRVFeatureExtractor.extract_nonlinear (lines 104-122). -/
def extractNonlinear (ext : ExternalHRV) (rr : List EFloat) : NonlinearFeatures :=
  if rr.length < 10 then emptyNonlinearFeatures else ext.getPoincarePlotFeatures rr

/-- Combined feature map of one window, plus the bookkeeping counters the
core adds itself (num_rr_intervals, num_removed). -/
structure WindowFeatures where
  time : TimeFeatures
  freq : FreqFeatures
  nonlinear : NonlinearFeatures
  num_rr_intervals : ℕ
  num_removed : ℤ
deriving DecidableEq, Repr, Inhabited

/-- Embeds HRVFeatureExtractor.extract_all_features (lines 124-151). -/
def extractAllFeatures (ext : ExternalHRV) (removeOutliersFlag : Bool)
    (rr : List EFloat) : WindowFeatures :=
  let rrClean := cleanRRIntervals ext removeOutliersFlag rr
  { time := extractTimeDomain ext rrClean
    freq := extractFrequencyDomain ext rrClean
    nonlinear := extractNonlinear ext rrClean
    num_rr_intervals := rrClean.length
    num_removed := (rr.length : ℤ) - (rrClean.length : ℤ) }

/-- Feature record for one surviving window (timestamp plus feature map). -/
structure FeatureRecord where
  t : ℕ
  f : WindowFeatures
deriving DecidableEq, Repr, Inhabited

/-- Convenience projections for the four tracked metrics. -/
def FeatureRecord.rmssd (r : FeatureRecord) : EFloat := r.f.time.rmssd

/-- SDNN projection. -/
def FeatureRecord.sdnn (r : FeatureRecord) : EFloat := r.f.time.sdnn

/-- Mean-HR projection. -/
def FeatureRecord.mean_hr (r : FeatureRecord) : EFloat := r.f.time.mean_hr

/-- LF/HF projection (the lf_hf_ratio column). -/
def FeatureRecord.lfHf (r : FeatureRecord) : EFloat := r.f.freq.lf_hf

/-- Embeds HRVFeatureExtractor.process_windows (lines 153-181).  On an empty
window set `pd.DataFrame([])` has no columns, so the column reordering
`df_hrv[cols]` raises KeyError; every caller guards with an emptiness check
first. -/
def processWindows (ext : ExternalHRV) (removeOutliersFlag : Bool)
    (ws : List HrvWindow) : Except String (List FeatureRecord) :=
  if ws.isEmpty then .error "KeyError: timestamp"
  else .ok (ws.map fun w => FeatureRecord.mk w.t (extractAllFeatures ext removeOutliersFlag w.ibi))

/-- Strict less-than used by numpy's npysort for doubles:
DOUBLE_LT(a, b) = a < b or (b is NaN and a is not), pushing NaNs last. -/
def npLT (a b : EFloat) : Bool := EFloat.lt a b || (b.isna && !a.isna)

/-- Tag-array indirection: value under a permutation entry. -/
def vAt (v : Array EFloat) (tags : Array ℕ) (i : ℕ) : EFloat := v[tags[i]!]!

/-- Swap of two positions of the tag array. -/
def swapT (a : Array ℕ) (i j : ℕ) : Array ℕ :=
  let x := a[i]!
  let y := a[j]!
  (a.set! i y).set! j x

/-- Scan of numpy's partition loop: do ++pi while LT(v[*pi], vp). -/
def scanUp (v : Array EFloat) (tags : Array ℕ) (vp : EFloat) :
    ℕ → ℕ → ℕ
  | 0, pi => pi
  | fuel + 1, pi =>
    let j := pi + 1
    if npLT (vAt v tags j) vp then scanUp v tags vp fuel j else j

/-- Scan of numpy's partition loop: do --pj while LT(vp, v[*pj]). -/
def scanDown (v : Array EFloat) (tags : Array ℕ) (vp : EFloat) :
    ℕ → ℕ → ℕ
  | 0, pj => pj
  | fuel + 1, pj =>
    let j := pj - 1
    if npLT vp (vAt v tags j) then scanDown v tags vp fuel j else j

/-- Hoare-style partition exchange loop of numpy aquicksort. -/
def partLoop (v : Array EFloat) (vp : EFloat) :
    ℕ → Array ℕ → ℕ → ℕ → Array ℕ × ℕ
  | 0, tags, pi, _ => (tags, pi)
  | fuel + 1, tags, pi, pj =>
    let i2 := scanUp v tags vp (v.size + 1) pi
    let j2 := scanDown v tags vp (v.size + 1) pj
    if j2 ≤ i2 then (tags, i2)
    else partLoop v vp fuel (swapT tags i2 j2) i2 j2

/-- Median-of-3 pivot selection plus partition, as in numpy aquicksort. -/
def partitionSeg (v : Array EFloat) (tags : Array ℕ) (pl pr : ℕ) :
    Array ℕ × ℕ :=
  let pm := pl + (pr - pl) / 2
  let t1 := if npLT (vAt v tags pm) (vAt v tags pl) then swapT tags pm pl else tags
  let t2 := if npLT (vAt v t1 pr) (vAt v t1 pm) then swapT t1 pr pm else t1
  let t3 := if npLT (vAt v t2 pm) (vAt v t2 pl) then swapT t2 pm pl else t2
  let vp := vAt v t3 pm
  let t4 := swapT t3 pm (pr - 1)
  let pq := partLoop v vp (v.size + 2) t4 pl (pr - 1)
  (swapT pq.1 pq.2 (pr - 1), pq.2)

/-- Leftward walk of numpy's insertion sort: shift entries right while
LT(key, previous), then drop the key in place (stops at the first tie, which
is what makes the small-array path stable). -/
def insWalk (v : Array EFloat) (vp : EFloat) (vi : ℕ) (pl : ℕ) :
    ℕ → Array ℕ → ℕ → Array ℕ
  | 0, tags, pj => tags.set! pj vi
  | fuel + 1, tags, pj =>
    if pl < pj && npLT vp (v[tags[pj - 1]!]!)
    then insWalk v vp vi pl fuel (tags.set! pj (tags[pj - 1]!)) (pj - 1)
    else tags.set! pj vi

/-- Insertion sort over the segment [pl, pr] of the tag array. -/
def insertSeg (v : Array EFloat) (tags : Array ℕ) (pl pr : ℕ) : Array ℕ :=
  (List.range' (pl + 1) (pr - pl)).foldl
    (fun tg pi => insWalk v (v[tg[pi]!]!) (tg[pi]!) pl (pi + 1) tg pi) tags

/-- Outer loop of numpy aquicksort: segments larger than SMALL_QUICKSORT =
15 entries beyond the first (i.e. more than 16 elements) are partitioned and
both halves queued; small segments get insertion sort.  Disjointness of the
segments makes the processing order irrelevant to the final array, so the
explicit stack replaces numpy's smaller-first traversal.  The introsort
depth-limit heapsort fallback is omitted: for the at most 24-element inputs
this code sorts (hour and weekday groups) the loop runs far fewer iterations
than the 2*msb(n) limit, so the fallback is unreachable. -/
def aqsortLoop (v : Array EFloat) :
    ℕ → Array ℕ → List (ℕ × ℕ) → Array ℕ
  | 0, tags, _ => tags
  | _ + 1, tags, [] => tags
  | fuel + 1, tags, (pl, pr) :: rest =>
    if 15 < pr - pl then
      let tp := partitionSeg v tags pl pr
      aqsortLoop v fuel tp.1 ((pl, tp.2 - 1) :: (tp.2 + 1, pr) :: rest)
    else
      aqsortLoop v fuel (insertSeg v tags pl pr) rest

/-- Stable insertion step on a reversed accumulator (rightmost element
first): mirrors numpy's leftward insertion walk on lists. -/
def insertTagRev (v : List EFloat) (i : ℕ) : List ℕ → List ℕ
  | [] => [i]
  | x :: xs => if npLT (v[i]!) (v[x]!) then x :: insertTagRev v i xs else i :: x :: xs

/-- List form of numpy's insertion argsort (the whole-array case taken when
the input has at most SMALL_QUICKSORT + 1 = 16 elements). -/
def insArgsortSmall (v : List EFloat) : List ℕ :=
  ((List.range v.length).foldl (fun acc i => insertTagRev v i acc) []).reverse

/-- Embeds np.argsort(kind='quicksort') as npysort aquicksort does it: pure
insertion sort when size - 1 is not above SMALL_QUICKSORT = 15, introsort
partitioning otherwise. -/
def npArgsort (v : List EFloat) : List ℕ :=
  if v.length ≤ 16 then insArgsortSmall v
  else
    (aqsortLoop (Array.mk v) (4 * v.length + 16) (Array.range v.length)
      [(0, v.length - 1)]).toList

/-- Embeds pandas nargsort (pandas/core/sorting.py), the engine behind
DataFrame.sort_values on one key: NaNs are masked out and placed last
(na_position='last'); for descending order the non-NaN block is reversed,
argsorted ascending, and the resulting indexer reversed again. -/
def nargsort (vals : List EFloat) (ascending : Bool) : List ℕ :=
  let idx := List.range vals.length
  let nonNanIdx := idx.filter fun i => !(vals[i]!).isna
  let nanIdx := idx.filter fun i => (vals[i]!).isna
  let ordIdx := if ascending then nonNanIdx else nonNanIdx.reverse
  let ordVals := ordIdx.map fun i => vals[i]!
  let srt := npArgsort ordVals
  let indexer0 := srt.map fun p => ordIdx[p]!
  let indexer := if ascending then indexer0 else indexer0.reverse
  indexer ++ nanIdx

/-- Generic sort_values on rows by a key column: pandas computes the
nargsort indexer of the key and takes rows in that order. -/
def sortRowsBy {α : Type} [Inhabited α] (rows : List α) (vals : List EFloat)
    (ascending : Bool) : List α :=
  (nargsort vals ascending).map fun i => rows[i]!

/-- Sorted distinct group keys, as pandas groupby(sort=True) produces. -/
def sortedKeys (l : List ℕ) : List ℕ :=
  (l.insertionSort (· ≤ ·)).dedup

/-- Hour-of-day temporal feature (timestamp.dt.hour). -/
def hourOf (t : ℕ) : ℕ := t / 3600 % 24

/-- Weekday temporal feature, Monday = 0 (timestamp.dt.dayofweek); the local
epoch day 1970-01-01 was a Thursday, weekday 3. -/
def weekdayOf (t : ℕ) : ℕ := (t / 86400 + 3) % 7

/-- Weekday names table of WeeklyAnalyzer.__init__. -/
def weekdayName (w : ℕ) : String :=
  ["Monday", "Tuesday", "Wednesday", "Thursday", "Friday", "Saturday",
    "Sunday"].getD w ""

/-- Per-hour mean RMSSD, df.groupby('hour')['rmssd'].mean(): hours present
in the records, ascending, each with the NaN-skipping mean. -/
def hourGroups (recs : List FeatureRecord) : List (ℕ × EFloat) :=
  (sortedKeys (recs.map fun r => hourOf r.t)).map fun h =>
    (h, meanE ((recs.filter fun r => hourOf r.t = h).map FeatureRecord.rmssd))

/-- Embeds WeeklyAnalyzer.get_best_hrv_hours (weekly_analyzer.py lines
70-86): hourly RMSSD means sorted descending, first top_n rows. -/
def bestHrvHours (recs : List FeatureRecord) (topN : ℕ) : List (ℕ × EFloat) :=
  let hg := hourGroups recs
  (sortRowsBy hg (hg.map fun p => p.2) false).take topN

/-- Embeds WeeklyAnalyzer.get_worst_hrv_hours (lines 88-104): hourly RMSSD
means sorted ascending, first top_n rows. -/
def worstHrvHours (recs : List FeatureRecord) (topN : ℕ) : List (ℕ × EFloat) :=
  let hg := hourGroups recs
  (sortRowsBy hg (hg.map fun p => p.2) true).take topN

/-- Records falling on one weekday. -/
def weekdayRecords (recs : List FeatureRecord) (w : ℕ) : List FeatureRecord :=
  recs.filter fun r => weekdayOf r.t = w

/-- Embeds Series.idxmax with skipna: first key attaining the maximum
non-NaN value; none models the ValueError raised when every value is NaN. -/
def idxmaxE (l : List (ℕ × EFloat)) : Option ℕ :=
  (l.foldl
    (fun best p =>
      if p.2.isna then best
      else
        match best with
        | none => some p
        | some b => if EFloat.lt b.2 p.2 then some p else some b)
    none).map fun p => p.1

/-- Embeds Series.idxmin with skipna, mirror image of idxmaxE. -/
def idxminE (l : List (ℕ × EFloat)) : Option ℕ :=
  (l.foldl
    (fun best p =>
      if p.2.isna then best
      else
        match best with
        | none => some p
        | some b => if EFloat.lt p.2 b.2 then some p else some b)
    none).map fun p => p.1

/-- Entry of the best/worst hours-per-weekday maps. -/
structure BestHourEntry where
  name : String
  hour : ℕ
  avg_rmssd : EFloat
deriving DecidableEq, Repr, Inhabited

/-- Embeds WeeklyAnalyzer.get_best_hrv_hours_per_weekday (lines 106-129):
for each weekday with records, idxmax/max of the within-weekday hourly
RMSSD means; idxmax on an all-NaN series raises. -/
def bestHoursPerWeekday (recs : List FeatureRecord) :
    Except String (List BestHourEntry) :=
  ((List.range 7).filter fun w => !(weekdayRecords recs w).isEmpty).mapM fun w =>
    let hg := hourGroups (weekdayRecords recs w)
    match idxmaxE hg with
    | some h => .ok (BestHourEntry.mk (weekdayName w) h (maxE (hg.map fun p => p.2)))
    | none => .error "ValueError: idxmax of an all-NaN series"

/-- Embeds WeeklyAnalyzer.get_worst_hrv_hours_per_weekday (lines 131-154). -/
def worstHoursPerWeekday (recs : List FeatureRecord) :
    Except String (List BestHourEntry) :=
  ((List.range 7).filter fun w => !(weekdayRecords recs w).isEmpty).mapM fun w =>
    let hg := hourGroups (weekdayRecords recs w)
    match idxminE hg with
    | some h => .ok (BestHourEntry.mk (weekdayName w) h (minE (hg.map fun p => p.2)))
    | none => .error "ValueError: idxmin of an all-NaN series"

/-- Row of the most_stressful_weekdays table. -/
structure WeekdayStats where
  weekday : ℕ
  weekday_name : String
  rmssd : EFloat
  mean_hr : EFloat
  lfHf : EFloat
  stress_rank : ℕ
deriving DecidableEq, Repr, Inhabited

/-- Embeds WeeklyAnalyzer.get_most_stressful_weekdays (lines 156-177):
weekday groups (ascending weekday), metric means, sorted ascending by mean
RMSSD, ranks 1..k appended in sorted order. -/
def mostStressfulWeekdays (recs : List FeatureRecord) : List WeekdayStats :=
  let days := (List.range 7).filter fun w => !(weekdayRecords recs w).isEmpty
  let rows := days.map fun w =>
    let g := weekdayRecords recs w
    WeekdayStats.mk w (weekdayName w) (meanE (g.map FeatureRecord.rmssd))
      (meanE (g.map FeatureRecord.mean_hr)) (meanE (g.map FeatureRecord.lfHf)) 0
  let sorted := sortRowsBy rows (rows.map fun r => r.rmssd) true
  (List.range sorted.length).map fun i => { sorted[i]! with stress_rank := i + 1 }

/-- Row of the workweek_difficulty table. -/
structure WorkweekRow where
  weekday : ℕ
  weekday_name : String
  rmssd : EFloat
  mean_hr : EFloat
  sdnn : EFloat
  difficulty_rank : ℕ
  difficulty_label : String
deriving DecidableEq, Repr, Inhabited

/-- Ordered difficulty vocabulary of get_workweek_difficulty. -/
def difficultyVocab : List String := ["Hardest", "Hard", "Medium", "Easy", "Easiest"]

/-- Workweek groupby rows of get_workweek_difficulty before sorting:
weekdays 0-4 having records, ascending, with the three metric means (rank
and label columns still unset). -/
def workweekBaseRows (recs : List FeatureRecord) : List WorkweekRow :=
  let ww := recs.filter fun r => weekdayOf r.t < 5
  ((List.range 5).filter fun w => !(weekdayRecords ww w).isEmpty).map fun w =>
    let g := weekdayRecords ww w
    WorkweekRow.mk w (weekdayName w) (meanE (g.map FeatureRecord.rmssd))
      (meanE (g.map FeatureRecord.mean_hr)) (meanE (g.map FeatureRecord.sdnn)) 0 ""

/-- Rank/label assignment of get_workweek_difficulty: position i of the
sorted table gets rank i+1 and label i of the vocabulary truncated to the
table length. -/
def rankAndLabel (sorted : List WorkweekRow) : List WorkweekRow :=
  let labels := difficultyVocab.take sorted.length
  (List.range sorted.length).map fun i =>
    { sorted[i]! with difficulty_rank := i + 1, difficulty_label := labels.getD i "" }

/-- Embeds WeeklyAnalyzer.get_workweek_difficulty (lines 179-207): restrict
to weekdays 0-4, group (ascending weekday), sort ascending by mean RMSSD,
assign ranks 1..k and the first k difficulty labels in sorted order. -/
def workweekDifficulty (recs : List FeatureRecord) : List WorkweekRow :=
  if (recs.filter fun r => weekdayOf r.t < 5).isEmpty then []
  else
    let rows := workweekBaseRows recs
    rankAndLabel (sortRowsBy rows (rows.map fun r => r.rmssd) true)

/-- Row of the hourly_patterns table (flattened groupby-agg columns of
get_hourly_patterns). -/
structure HourlyPatternRow where
  hour : ℕ
  rmssd_mean : EFloat
  rmssd_std : EFloat
  rmssd_min : EFloat
  rmssd_max : EFloat
  rmssd_count : ℕ
  sdnn_mean : EFloat
  sdnn_std : EFloat
  mean_hr_mean : EFloat
  mean_hr_std : EFloat
  lfHf_mean : EFloat
  lfHf_std : EFloat
deriving DecidableEq, Repr, Inhabited

/-- Embeds WeeklyAnalyzer.get_hourly_patterns (lines 46-68).  The pandas
sample standard deviation involves an irrational square root, so it is kept
opaque as the stdFn parameter; every other aggregate is exact. -/
def getHourlyPatterns (stdFn : List EFloat → EFloat)
    (recs : List FeatureRecord) : List HourlyPatternRow :=
  (sortedKeys (recs.map fun r => hourOf r.t)).map fun h =>
    let g := recs.filter fun r => hourOf r.t = h
    let rm := g.map FeatureRecord.rmssd
    let sd := g.map FeatureRecord.sdnn
    let hr := g.map FeatureRecord.mean_hr
    let lh := g.map FeatureRecord.lfHf
    HourlyPatternRow.mk h (meanE rm) (stdFn rm) (minE rm) (maxE rm) (countE rm)
      (meanE sd) (stdFn sd) (meanE hr) (stdFn hr) (meanE lh) (stdFn lh)

/-- The weekly summary bundle of create_weekly_summary. -/
structure WeeklySummary where
  hourly_patterns : List HourlyPatternRow
  best_hrv_hours : List (ℕ × EFloat)
  worst_hrv_hours : List (ℕ × EFloat)
  best_hours_per_weekday : List BestHourEntry
  worst_hours_per_weekday : List BestHourEntry
  most_stressful_weekdays : List WeekdayStats
  workweek_difficulty : List WorkweekRow
deriving DecidableEq, Repr, Inhabited

/-- Embeds WeeklyAnalyzer.create_weekly_summary (lines 209-227). -/
def createWeeklySummary (stdFn : List EFloat → EFloat)
    (recs : List FeatureRecord) : Except String WeeklySummary := do
  let b ← bestHoursPerWeekday recs
  let w ← worstHoursPerWeekday recs
  .ok (WeeklySummary.mk (getHourlyPatterns stdFn recs) (bestHrvHours recs 5)
    (worstHrvHours recs 5) b w (mostStressfulWeekdays recs)
    (workweekDifficulty recs))

/-- Embeds _safe_float (app/analysis.py lines 28-36): only NaN is mapped to
None -- the check f != f is false for infinities, which pass through. -/
def safeFloat (v : EFloat) : Option EFloat := if v.isna then none else some v

/-- Aggregated bucket row of agg_df (analysis.py lines 74-80). -/
structure AggRow where
  bucket : ℕ
  rmssd : EFloat
  sdnn : EFloat
  mean_hr : EFloat
  lfHf : EFloat
deriving DecidableEq, Repr, Inhabited

/-- Embeds df_numeric.resample(freq).mean().dropna(how='all') (analysis.py
lines 74-80): group records by bucket, take the NaN-skipping mean of each of
the four metric columns, and drop rows whose four aggregates are all NaN
(which also removes the gap buckets the resampler would emit as all-NaN
rows). -/
def aggBuckets (bucketOf : ℕ → ℕ) (recs : List FeatureRecord) : List AggRow :=
  let keys := sortedKeys (recs.map fun r => bucketOf r.t)
  let rows := keys.map fun k =>
    let g := recs.filter fun r => bucketOf r.t = k
    AggRow.mk k (meanE (g.map FeatureRecord.rmssd)) (meanE (g.map FeatureRecord.sdnn))
      (meanE (g.map FeatureRecord.mean_hr)) (meanE (g.map FeatureRecord.lfHf))
  rows.filter fun r =>
    !(r.rmssd.isna && r.sdnn.isna && r.mean_hr.isna && r.lfHf.isna)

/-- Emitted time-series bucket (analysis.py lines 83-91); the strftime label
is abstracted to the bucket index. -/
structure TimeBucketOut where
  bucket : ℕ
  rmssd : Option EFloat
  sdnn : Option EFloat
  mean_hr : Option EFloat
  lfHf : Option EFloat
deriving DecidableEq, Repr, Inhabited

/-- Embeds Step 5 of compute_hrv_for_range: one output row per agg_df row,
each metric passed through _safe_float. -/
def timeSeriesOf (agg : List AggRow) : List TimeBucketOut :=
  agg.map fun r =>
    TimeBucketOut.mk r.bucket (safeFloat r.rmssd) (safeFloat r.sdnn)
      (safeFloat r.mean_hr) (safeFloat r.lfHf)

/-- Summary metrics object (analysis.py lines 93-99 / schemas.py). -/
structure SummaryMetrics where
  rmssd_mean : Option EFloat
  sdnn_mean : Option EFloat
  mean_hr : Option EFloat
  lf_hf_ratio_mean : Option EFloat
deriving DecidableEq, Repr, Inhabited

/-- Embeds Step 6 of compute_hrv_for_range: NaN-skipping column means of the
aggregated (post-dropna) bucket rows, through _safe_float. -/
def summaryOf (agg : List AggRow) : SummaryMetrics :=
  SummaryMetrics.mk (safeFloat (meanE (agg.map fun r => r.rmssd)))
    (safeFloat (meanE (agg.map fun r => r.sdnn)))
    (safeFloat (meanE (agg.map fun r => r.mean_hr)))
    (safeFloat (meanE (agg.map fun r => r.lfHf)))

/-- The four supported range strings of _RANGE_CONFIG. -/
inductive RangeKind where
  | d1
  | d7
  | d30
  | m6
deriving DecidableEq, Repr, Inhabited

/-- Month index (year * 12 + month) of a day count since 1970-01-01, by the
standard civil-from-days conversion; models the calendar-month anchoring of
resample('MS'). -/
def monthIndex (days : ℕ) : ℕ :=
  let z := days + 719468
  let era := z / 146097
  let doe := z % 146097
  let yoe := (doe - doe / 1460 + doe / 36524 - doe / 146096) / 365
  let doy := doe - (365 * yoe + yoe / 4 - yoe / 100)
  let mp := (5 * doy + 2) / 153
  let m := if mp < 10 then mp + 3 else mp - 9
  let y := era * 400 + yoe + (if m ≤ 2 then 1 else 0)
  y * 12 + m

/-- Bucket key function of each resample frequency in _RANGE_CONFIG: hourly
('h'), daily ('D'), weekly ending Sunday ('W-SUN', so days are grouped into
Monday-to-Sunday spans), and calendar-month ('MS'), all on local time. -/
def rangeBucketOf : RangeKind → ℕ → ℕ
  | .d1 => fun t => t / 3600
  | .d7 => fun t => t / 86400
  | .d30 => fun t => (t / 86400 + 3) / 7
  | .m6 => fun t => monthIndex (t / 86400)

/-- True for the ranges listed in the patterns gate of analysis.py line 103:
range in ("7d", "30d", "6m"). -/
def rangeIsMultiDay : RangeKind → Bool
  | .d1 => false
  | _ => true

/-- Result object of compute_hrv_for_range (minus the user_id / range /
generated_at echo fields, which carry no computed data). -/
structure HRVOutput where
  summary_metrics : SummaryMetrics
  time_series : List TimeBucketOut
  patterns : Option WeeklySummary
deriving DecidableEq, Repr, Inhabited

/-- Keys of the dict returned by compute_hrv_for_range (analysis.py lines
107-114), equal to the field set of schemas.HRVResponse; FastAPI serializes
every field (response_model_exclude_none is not set), so a None patterns
value is emitted as an explicit null member, not omitted. -/
def hrvResponseFields : List String :=
  ["user_id", "range", "generated_at", "summary_metrics", "time_series",
    "patterns"]

/-- Embeds Steps 4-7 of compute_hrv_for_range (analysis.py lines 70-114),
from the feature records onward: bucket aggregation, time series, summary
metrics, and the weekly patterns computed only for multi-day ranges. -/
def computeOutput (stdFn : List EFloat → EFloat) (range : RangeKind)
    (recs : List FeatureRecord) : Except String HRVOutput := do
  let agg := aggBuckets (rangeBucketOf range) recs
  let patterns ←
    if rangeIsMultiDay range then (createWeeklySummary stdFn recs).map some
    else .ok none
  .ok (HRVOutput.mk (summaryOf agg) (timeSeriesOf agg) patterns)

/-- Hourly output row of routes/hrv_day.py. -/
structure HourlyOut where
  hour : ℕ
  rmssd : Option EFloat
  sdnn : Option EFloat
  mean_hr : Option EFloat
  lfHf : Option EFloat
deriving DecidableEq, Repr, Inhabited

/-- The hourly aggregation loop of _hourly_hrv_for_window (hrv_day.py lines
60-72): one row per populated hour, ascending, NaN-skipping means through
_safe_float. -/
def hourlyFromFeatures (recs : List FeatureRecord) : List HourlyOut :=
  (sortedKeys (recs.map fun r => hourOf r.t)).map fun h =>
    let g := recs.filter fun r => hourOf r.t = h
    HourlyOut.mk h (safeFloat (meanE (g.map FeatureRecord.rmssd)))
      (safeFloat (meanE (g.map FeatureRecord.sdnn)))
      (safeFloat (meanE (g.map FeatureRecord.mean_hr)))
      (safeFloat (meanE (g.map FeatureRecord.lfHf)))

/-- Embeds _hourly_hrv_for_window (routes/hrv_day.py lines 39-72): empty
raw data, empty window set, and empty feature set all short-circuit to an
empty list before any step that could raise. -/
def hourlyHrvForWindow (ext : ExternalHRV) (removeOutliersFlag : Bool)
    (raw : List RawSample) : Except String (List HourlyOut) :=
  if raw.isEmpty then .ok []
  else
    let ws := process raw
    if ws.isEmpty then .ok []
    else do
      let recs ← processWindows ext removeOutliersFlag ws
      if recs.isEmpty then .ok [] else .ok (hourlyFromFeatures recs)

/-- Mean of a list of rationals; none when the list is empty.  Used by the
spec-side (two-stage versus flat) formulations. -/
def optMeanQ (l : List ℚ) : Option ℚ :=
  match l with
  | [] => none
  | _ => some (qdiv (l.foldl qadd 0) (l.length : ℚ))

/-- Finite projection of an extended value. -/
def toFiniteQ : EFloat → Option ℚ
  | .fin q => some q
  | _ => none

/-- Spec-side two-stage mean of one metric column, following the spec words:
the mean of the already-computed bucket-level means across all emitted
buckets, buckets missing the metric being skipped. -/
def twoStageMeanOf (bucketOf : ℕ → ℕ) (recs : List FeatureRecord)
    (col : AggRow → EFloat) : Option ℚ :=
  optMeanQ ((aggBuckets bucketOf recs).filterMap fun r => toFiniteQ (col r))

/-- Spec-side flat mean of one metric over all raw FeatureRecords, the
alternative the spec rules out. -/
def flatMeanOf (recs : List FeatureRecord) (metric : FeatureRecord → EFloat) :
    Option ℚ :=
  optMeanQ (recs.filterMap fun r => toFiniteQ (metric r))

/-- Descending comparison on (hour, mean) pairs with ties by ascending
(original) hour order, the ordering the spec claims for best HRV hours. -/
def descTieLe (a b : ℕ × EFloat) : Bool :=
  npLT b.2 a.2 || (!npLT b.2 a.2 && !npLT a.2 b.2 && decide (a.1 ≤ b.1))

/-- Ascending comparison on (hour, mean) pairs with ties by ascending
(original) hour order, the ordering the spec claims for worst HRV hours. -/
def ascTieLe (a b : ℕ × EFloat) : Bool :=
  npLT a.2 b.2 || (!npLT a.2 b.2 && !npLT b.2 a.2 && decide (a.1 ≤ b.1))

/-- Spec-side best HRV hours: stable top-5 by mean RMSSD descending. -/
def specBestHours (recs : List FeatureRecord) : List (ℕ × EFloat) :=
  ((hourGroups recs).insertionSort fun a b => descTieLe a b = true).take 5

/-- Spec-side worst HRV hours: stable bottom-5 by mean RMSSD ascending. -/
def specWorstHours (recs : List FeatureRecord) : List (ℕ × EFloat) :=
  ((hourGroups recs).insertionSort fun a b => ascTieLe a b = true).take 5

/-- Ascending comparison on workweek rows by mean RMSSD with ties by
weekday, matching the source's stable small-table sort. -/
def ascTieLeW (a b : WorkweekRow) : Bool :=
  npLT a.rmssd b.rmssd ||
    (!npLT a.rmssd b.rmssd && !npLT b.rmssd a.rmssd && decide (a.weekday ≤ b.weekday))

/-- Group-identifying projection of a workweek row (everything except the
rank and label columns added after sorting). -/
def wwKey (r : WorkweekRow) : ℕ × String × EFloat × EFloat × EFloat :=
  (r.weekday, r.weekday_name, r.rmssd, r.mean_hr, r.sdnn)

/-- Record constructor used by concrete test inputs: an opaque feature map
carrying given values for the four tracked metrics. -/
def mkRec (t : ℕ) (rm sd hr lh : EFloat) : FeatureRecord :=
  FeatureRecord.mk t
    (WindowFeatures.mk
      { emptyTimeFeatures with rmssd := rm, sdnn := sd, mean_hr := hr }
      { emptyFreqFeatures with lf_hf := lh }
      emptyNonlinearFeatures 0 0)

/-- The spec scenario input: bpm sequence [70, 75, 80, 0, 90] at 1-minute
spacing. -/
def scenRaw : List RawSample :=
  [RawSample.mk 0 70, RawSample.mk 60 75, RawSample.mk 120 80,
    RawSample.mk 180 0, RawSample.mk 240 90]

/-- Feature-record set with 17 populated hours of identical mean RMSSD:
above the 16-element threshold numpy's introsort partitioning scrambles
ties. -/
def cexHours17 : List FeatureRecord :=
  (List.range 17).map fun h => mkRec (h * 3600) (.fin 50) .nan .nan .nan

/-- Feature-record set whose two-stage and flat RMSSD means differ: one
bucket of one record (rmssd 0) and one bucket of three records (rmssd 10):
two-stage mean 5, flat mean 7.5. -/
def c1Recs : List FeatureRecord :=
  [mkRec 0 (.fin 0) .nan .nan .nan, mkRec 3600 (.fin 10) .nan .nan .nan,
    mkRec 3660 (.fin 10) .nan .nan .nan, mkRec 3720 (.fin 10) .nan .nan .nan]

/-- Feature-record set with data on Monday, Wednesday and Friday only
(local days 4, 6, 8 since epoch), RMSSD means 30, 20, 40. -/
def c7Recs : List FeatureRecord :=
  [mkRec (4 * 86400) (.fin 30) .nan .nan .nan,
    mkRec (6 * 86400) (.fin 20) .nan .nan .nan,
    mkRec (8 * 86400) (.fin 40) .nan .nan .nan]

/-- Raw input with a one-minute interior gap: samples at minutes 0 and 2. -/
def gapRaw : List RawSample :=
  [RawSample.mk 0 60, RawSample.mk 120 50]

/-- Trivial external collaborator instance used by witnesses: behaviour of
the externals is irrelevant to the quantified theorems being instantiated. -/
def extId : ExternalHRV :=
  ExternalHRV.mk (fun _ => emptyTimeFeatures) (fun _ => emptyFreqFeatures)
    (fun _ => emptyNonlinearFeatures) (fun l => l) (fun l => l)

/-- Trivial std function instance used by witnesses. -/
def stdZero : List EFloat → EFloat := fun _ => .nan

/-- Boolean predicate: the value is finite or NaN (not an infinity). -/
def finOrNan : EFloat → Bool
  | .pinf => false
  | .ninf => false
  | _ => true

/-- The ibi_ms column of df_1min, paired with minute positions, as handed
to the interpolation step. -/
def ibiColumn (raw : List RawSample) : List (ℕ × EFloat) :=
  (minuteRows (calculateIbi raw)).map fun r => (r.m, r.ibi)

/-- The weekly summary computed for c1Recs, used to instantiate the
multi-day patterns theorem. -/
def c5Summary : WeeklySummary :=
  ((createWeeklySummary stdZero c1Recs).toOption).getD default

/-- Strict tag order used to reason about numpy's argsort: tag x precedes
tag y when its value is smaller, or on equal values when x is the smaller
(earlier) index. -/
def tagLT (v : List EFloat) (x y : ℕ) : Prop :=
  EFloat.lt (v[x]!) (v[y]!) = true ∨ (v[x]! = v[y]! ∧ x < y)

/-- Generic shape of the key-with-positional-tie-break comparisons the
sort_values embeddings satisfy. -/
def mkLe (u v : EFloat) (p q : ℕ) : Bool :=
  npLT u v || (!npLT u v && !npLT v u && decide (p ≤ q))

lemma qadd_eq_add (a b : ℚ) : qadd a b = a + b := (Rat.add_def' a b).symm

lemma qsub_eq_sub (a b : ℚ) : qsub a b = a - b := (Rat.sub_def' a b).symm

lemma qmul_eq_mul (a b : ℚ) : qmul a b = a * b := by
  rw [Rat.mul_def, Rat.normalize_eq_mkRat]
  rfl

lemma qinv_eq_inv (a : ℚ) : qinv a = a⁻¹ := (Rat.inv_def a).symm

lemma qdiv_eq_div (a b : ℚ) : qdiv a b = a / b := by
  rw [qdiv, qmul_eq_mul, qinv_eq_inv]
  rfl

lemma listGetBang {α : Type} [Inhabited α] (l : List α) (i : ℕ)
    (h : i < l.length) : l[i]! = l[i] := getElem!_pos l i h

lemma cleanRRIntervals_of_lt_ten (ext : ExternalHRV) (flag : Bool)
    (rr : List EFloat) (h : rr.length < 10) :
    cleanRRIntervals ext flag rr = rr := by
  unfold cleanRRIntervals
  simp [h]

/-- C10: a window IBI list with fewer than 10 values passes through
clean_rr_intervals unchanged, so its FeatureRecord reports num_removed = 0
and num_rr_intervals equal to the list length. -/
theorem clean_below_ten_identity (ext : ExternalHRV) (flag : Bool)
    (rr : List EFloat) (h : rr.length < 10) :
    cleanRRIntervals ext flag rr = rr ∧
    (extractAllFeatures ext flag rr).num_rr_intervals = rr.length ∧
    (extractAllFeatures ext flag rr).num_removed = 0 := by
  have hc := cleanRRIntervals_of_lt_ten ext flag rr h
  refine ⟨hc, ?_, ?_⟩ <;> simp [extractAllFeatures, hc]

/-- Witness: clean_below_ten_identity applied to a one-element list. -/
theorem clean_below_ten_identity_witness :
    cleanRRIntervals extId true [EFloat.fin 800] = [EFloat.fin 800] ∧
    (extractAllFeatures extId true [EFloat.fin 800]).num_rr_intervals = 1 ∧
    (extractAllFeatures extId true [EFloat.fin 800]).num_removed = 0 :=
  clean_below_ten_identity extId true [EFloat.fin 800] (by decide)

/-- C8: below 10 samples the frequency-domain and non-linear metric groups
are the all-NaN maps, and the time-domain group is all-NaN below 2 samples
but is the external computation's output from 2 samples on, so a window of
2 to 9 values still yields computed time-domain metrics. -/
theorem feature_threshold_boundaries (ext : ExternalHRV) (flag : Bool)
    (rr : List EFloat) (h : rr.length < 10) :
    (extractAllFeatures ext flag rr).freq = emptyFreqFeatures ∧
    (extractAllFeatures ext flag rr).nonlinear = emptyNonlinearFeatures ∧
    (extractAllFeatures ext flag rr).time =
      (if rr.length < 2 then emptyTimeFeatures else ext.getTimeDomainFeatures rr) := by
  have hc := cleanRRIntervals_of_lt_ten ext flag rr h
  refine ⟨?_, ?_, ?_⟩ <;>
    simp [extractAllFeatures, hc, extractFrequencyDomain, extractNonlinear,
      extractTimeDomain, h]

/-- Witness: feature_threshold_boundaries at the 9-sample boundary (the
window survives with computed time-domain metrics). -/
theorem feature_threshold_boundaries_witness :
    (extractAllFeatures extId true (List.replicate 9 (EFloat.fin 800))).freq =
      emptyFreqFeatures ∧
    (extractAllFeatures extId true (List.replicate 9 (EFloat.fin 800))).nonlinear =
      emptyNonlinearFeatures ∧
    (extractAllFeatures extId true (List.replicate 9 (EFloat.fin 800))).time =
      extId.getTimeDomainFeatures (List.replicate 9 (EFloat.fin 800)) :=
  feature_threshold_boundaries extId true (List.replicate 9 (EFloat.fin 800))
    (by decide)

/-- C9: insufficient-data conditions never raise: empty raw input, an input
whose window set is empty, and an empty feature-record set all produce
empty containers (ok []), leaving not-found mapping to the caller. -/
theorem empty_data_never_raises (ext : ExternalHRV) (flag : Bool) :
    hourlyHrvForWindow ext flag [] = .ok [] ∧
    process [] = [] ∧
    hourlyFromFeatures [] = [] ∧
    ∀ raw : List RawSample, process raw = [] →
      hourlyHrvForWindow ext flag raw = .ok [] := by
  refine ⟨rfl, rfl, by simp [hourlyFromFeatures, sortedKeys], ?_⟩
  intro raw h
  unfold hourlyHrvForWindow
  simp [h]

/-- Witness: empty_data_never_raises instantiated at the empty input. -/
theorem empty_data_never_raises_witness :
    hourlyHrvForWindow extId true [] = .ok [] :=
  (empty_data_never_raises extId true).2.2.2 [] rfl

/-- C2 fails on the code: the bpm = 0 entry of the spec's own scenario
produces an ibi_ms of +inf that passes the pd.isna window filter and so
reaches feature extraction; on the output side _safe_float only nulls NaN
(f != f is false for +inf), and the NaN-skipping bucket means propagate
infinities, so a +inf window metric is emitted as +inf in both the time
series and the summary metrics instead of null. -/
theorem inf_escapes_to_output :
    ((process scenRaw).map fun w => w.ibi) =
      [[.fin (mkRat 6000 7), .fin 800, .fin 750, .pinf, .fin (mkRat 2000 3)]] ∧
    safeFloat .pinf = some .pinf ∧
    computeOutput stdZero .d1 [mkRec 0 .pinf .nan .nan .nan] =
      .ok (HRVOutput.mk (SummaryMetrics.mk (some .pinf) none none none)
        [TimeBucketOut.mk 0 (some .pinf) none none none] none) := by
  refine ⟨by decide, rfl, by decide⟩

/-- C5 fails on the code: compute_hrv_for_range always returns a dict with
a "patterns" key (None for range 1d), and HRVResponse serializes it, so a
1d query's response contains an explicit null patterns field rather than
omitting it. -/
theorem patterns_field_present_for_1d :
    "patterns" ∈ hrvResponseFields ∧
    (computeOutput stdZero .d1 c1Recs).toOption.map HRVOutput.patterns =
      some none := by
  refine ⟨by simp [hrvResponseFields], rfl⟩

/-- C5 amended: a 1d query never computes the weekly summary and emits the
patterns field with a null value (the field itself is still present), while
7d, 30d and 6m queries compute the weekly summary and return it as the
patterns value. -/
theorem patterns_gating (stdFn : List EFloat → EFloat)
    (recs : List FeatureRecord) :
    computeOutput stdFn .d1 recs =
      .ok (HRVOutput.mk (summaryOf (aggBuckets (rangeBucketOf .d1) recs))
        (timeSeriesOf (aggBuckets (rangeBucketOf .d1) recs)) none) ∧
    "patterns" ∈ hrvResponseFields ∧
    ∀ range : RangeKind, rangeIsMultiDay range = true →
      ∀ s : WeeklySummary, createWeeklySummary stdFn recs = .ok s →
        computeOutput stdFn range recs =
          .ok (HRVOutput.mk (summaryOf (aggBuckets (rangeBucketOf range) recs))
            (timeSeriesOf (aggBuckets (rangeBucketOf range) recs)) (some s)) := by
  refine ⟨rfl, by simp [hrvResponseFields], ?_⟩
  intro range hr s hs
  unfold computeOutput
  simp [hr, hs, Except.map, Bind.bind, Except.bind]

/-- Witness: patterns_gating at range 7d with the concrete summary of
c1Recs. -/
theorem patterns_gating_witness :
    computeOutput stdZero .d7 c1Recs =
      .ok (HRVOutput.mk (summaryOf (aggBuckets (rangeBucketOf .d7) c1Recs))
        (timeSeriesOf (aggBuckets (rangeBucketOf .d7) c1Recs))
        (some c5Summary)) :=
  (patterns_gating stdZero c1Recs).2.2 .d7 rfl c5Summary (by decide)

lemma filter_not_isna_of_finOrNan (l : List EFloat)
    (h : ∀ v ∈ l, finOrNan v = true) :
    l.filter (fun v => !v.isna) = (l.filterMap toFiniteQ).map EFloat.fin := by
  induction l with
  | nil => rfl
  | cons v vs ih =>
    have hv := h v (by simp)
    have hvs : ∀ x ∈ vs, finOrNan x = true := fun x hx => h x (by simp [hx])
    cases v <;> simp_all [finOrNan, EFloat.isna, toFiniteQ]

lemma foldl_add_fin (qs : List ℚ) :
    ∀ a : ℚ, (qs.map EFloat.fin).foldl EFloat.add (.fin a) = .fin (qs.foldl qadd a) := by
  induction qs with
  | nil => intro a; rfl
  | cons q qs ih => intro a; simp [EFloat.add, ih]

lemma safeFloat_meanE (l : List EFloat) (h : ∀ v ∈ l, finOrNan v = true) :
    safeFloat (meanE l) = (optMeanQ (l.filterMap toFiniteQ)).map EFloat.fin := by
  rw [meanE, filter_not_isna_of_finOrNan l h]
  cases hq : l.filterMap toFiniteQ with
  | nil => simp [safeFloat, EFloat.isna, optMeanQ]
  | cons q qs =>
    have hlen : ((q :: qs).map EFloat.fin).length = qs.length + 1 := by simp
    have hne : (qs.length : ℚ) + 1 ≠ 0 := Nat.cast_add_one_ne_zero qs.length
    simp only [hlen, sumE, foldl_add_fin, optMeanQ]
    simp [EFloat.div, hne, safeFloat, EFloat.isna]

lemma finOrNan_meanE (l : List EFloat) (h : ∀ v ∈ l, finOrNan v = true) :
    finOrNan (meanE l) = true := by
  have hs := safeFloat_meanE l h
  cases hm : meanE l <;> rw [hm] at hs <;>
    first
    | rfl
    | (exfalso
       cases hq : l.filterMap toFiniteQ <;> rw [hq] at hs <;>
         simp [safeFloat, EFloat.isna, optMeanQ] at hs)

lemma aggBuckets_finOrNan (bucketOf : ℕ → ℕ) (recs : List FeatureRecord)
    (h : ∀ r ∈ recs, finOrNan r.rmssd = true ∧ finOrNan r.sdnn = true ∧
      finOrNan r.mean_hr = true ∧ finOrNan r.lfHf = true) :
    ∀ row ∈ aggBuckets bucketOf recs, finOrNan row.rmssd = true ∧
      finOrNan row.sdnn = true ∧ finOrNan row.mean_hr = true ∧
      finOrNan row.lfHf = true := by
  intro row hrow
  have hrow2 := List.mem_of_mem_filter hrow
  rcases List.mem_map.1 hrow2 with ⟨k, _, rfl⟩
  refine ⟨?_, ?_, ?_, ?_⟩ <;>
    (apply finOrNan_meanE
     intro v hv
     rcases List.mem_map.1 hv with ⟨r, hr, rfl⟩
     have := h r (List.mem_of_mem_filter hr)
     tauto)

/-- C1: every summary metric is the two-stage mean -- the NaN-skipping mean
of the already-computed bucket-level means across the emitted buckets --
and on a concrete input this differs from the flat mean over all
FeatureRecords. -/
theorem summary_is_two_stage_mean (bucketOf : ℕ → ℕ)
    (recs : List FeatureRecord)
    (h : ∀ r ∈ recs, finOrNan r.rmssd = true ∧ finOrNan r.sdnn = true ∧
      finOrNan r.mean_hr = true ∧ finOrNan r.lfHf = true) :
    ((summaryOf (aggBuckets bucketOf recs)).rmssd_mean =
        (twoStageMeanOf bucketOf recs (fun r => r.rmssd)).map EFloat.fin ∧
      (summaryOf (aggBuckets bucketOf recs)).sdnn_mean =
        (twoStageMeanOf bucketOf recs (fun r => r.sdnn)).map EFloat.fin ∧
      (summaryOf (aggBuckets bucketOf recs)).mean_hr =
        (twoStageMeanOf bucketOf recs (fun r => r.mean_hr)).map EFloat.fin ∧
      (summaryOf (aggBuckets bucketOf recs)).lf_hf_ratio_mean =
        (twoStageMeanOf bucketOf recs (fun r => r.lfHf)).map EFloat.fin) ∧
    (summaryOf (aggBuckets (rangeBucketOf .d1) c1Recs)).rmssd_mean ≠
      (flatMeanOf c1Recs FeatureRecord.rmssd).map EFloat.fin := by
  have hagg := aggBuckets_finOrNan bucketOf recs h
  constructor
  · refine ⟨?_, ?_, ?_, ?_⟩ <;>
      (show safeFloat (meanE _) = _
       rw [safeFloat_meanE]
       · rw [List.filterMap_map]
         rfl
       · intro v hv
         rcases List.mem_map.1 hv with ⟨row, hrow, rfl⟩
         have := hagg row hrow
         tauto)
  · decide

/-- Witness: summary_is_two_stage_mean at the hourly bucketing of c1Recs. -/
theorem summary_is_two_stage_mean_witness :
    (summaryOf (aggBuckets (rangeBucketOf .d1) c1Recs)).rmssd_mean =
      (twoStageMeanOf (rangeBucketOf .d1) c1Recs (fun r => r.rmssd)).map
        EFloat.fin :=
  (summary_is_two_stage_mean (rangeBucketOf .d1) c1Recs (by decide)).1.1

lemma foldl_min_le_init (l : List ℕ) (a : ℕ) : l.foldl Nat.min a ≤ a := by
  induction l generalizing a with
  | nil => exact Nat.le_refl a
  | cons x xs ih => exact Nat.le_trans (ih (Nat.min a x)) (Nat.min_le_left a x)

lemma foldl_min_le_mem (l : List ℕ) (a : ℕ) : ∀ x ∈ l, l.foldl Nat.min a ≤ x := by
  induction l generalizing a with
  | nil => intro x hx; cases hx
  | cons y ys ih =>
    intro x hx
    rcases List.mem_cons.1 hx with rfl | hx2
    · exact Nat.le_trans (foldl_min_le_init ys (Nat.min a x)) (Nat.min_le_right a x)
    · exact ih (Nat.min a y) x hx2

lemma foldl_min_attained (l : List ℕ) (a : ℕ) :
    l.foldl Nat.min a = a ∨ l.foldl Nat.min a ∈ l := by
  induction l generalizing a with
  | nil => exact Or.inl rfl
  | cons x xs ih =>
    rcases ih (Nat.min a x) with h | h
    · rcases Nat.le_total a x with hax | hax
      · have hm : Nat.min a x = a := by unfold Nat.min; omega
        exact Or.inl (by rw [List.foldl_cons, h, hm])
      · have hm : Nat.min a x = x := by unfold Nat.min; omega
        refine Or.inr (by rw [List.foldl_cons, h, hm]; exact List.mem_cons_self x xs)
    · exact Or.inr (List.mem_cons_of_mem x h)

lemma init_le_foldl_max (l : List ℕ) (a : ℕ) : a ≤ l.foldl Nat.max a := by
  induction l generalizing a with
  | nil => exact Nat.le_refl a
  | cons x xs ih => exact Nat.le_trans (Nat.le_max_left a x) (ih (Nat.max a x))

lemma mem_le_foldl_max (l : List ℕ) (a : ℕ) : ∀ x ∈ l, x ≤ l.foldl Nat.max a := by
  induction l generalizing a with
  | nil => intro x hx; cases hx
  | cons y ys ih =>
    intro x hx
    rcases List.mem_cons.1 hx with rfl | hx2
    · exact Nat.le_trans (Nat.le_max_right a x) (init_le_foldl_max ys (Nat.max a x))
    · exact ih (Nat.max a y) x hx2

lemma foldl_max_attained (l : List ℕ) (a : ℕ) :
    l.foldl Nat.max a = a ∨ l.foldl Nat.max a ∈ l := by
  induction l generalizing a with
  | nil => exact Or.inl rfl
  | cons x xs ih =>
    rcases ih (Nat.max a x) with h | h
    · rcases Nat.le_total a x with hax | hax
      · have hm : Nat.max a x = x := by unfold Nat.max; omega
        refine Or.inr (by rw [List.foldl_cons, h, hm]; exact List.mem_cons_self x xs)
      · have hm : Nat.max a x = a := by unfold Nat.max; omega
        exact Or.inl (by rw [List.foldl_cons, h, hm])
    · exact Or.inr (List.mem_cons_of_mem x h)

lemma meanE_all_fin (l : List EFloat) (h : ∀ v ∈ l, ∃ q, v = .fin q)
    (hne : l ≠ []) : ∃ q, meanE l = .fin q := by
  have hfn : ∀ v ∈ l, finOrNan v = true := by
    intro v hv
    rcases h v hv with ⟨q, rfl⟩
    rfl
  have := safeFloat_meanE l hfn
  cases hq : l.filterMap toFiniteQ with
  | nil =>
    exfalso
    rcases List.exists_mem_of_ne_nil l hne with ⟨v, hv⟩
    rcases h v hv with ⟨q, rfl⟩
    have hq2 : q ∈ l.filterMap toFiniteQ := List.mem_filterMap.2 ⟨_, hv, rfl⟩
    rw [hq] at hq2
    cases hq2
  | cons q qs =>
    rw [hq] at this
    cases hm : meanE l <;> rw [hm] at this <;>
      simp [safeFloat, EFloat.isna, optMeanQ] at this
    exact ⟨_, rfl⟩

lemma gridMinutes_spec (rows : List IBIRow) (hne : rows ≠ []) :
    ∃ a n, gridMinutes rows = List.range' a (n + 1) ∧
      (∃ r ∈ rows, minuteOf r.t = a) ∧
      (∃ r ∈ rows, minuteOf r.t = a + n) ∧
      ∀ r ∈ rows, a ≤ minuteOf r.t ∧ minuteOf r.t ≤ a + n := by
  cases rows with
  | nil => exact absurd rfl hne
  | cons r rest =>
    have hab : (rest.map fun x => minuteOf x.t).foldl Nat.min (minuteOf r.t) ≤
        (rest.map fun x => minuteOf x.t).foldl Nat.max (minuteOf r.t) :=
      Nat.le_trans (foldl_min_le_init _ _) (init_le_foldl_max _ _)
    refine ⟨(rest.map fun x => minuteOf x.t).foldl Nat.min (minuteOf r.t),
      (rest.map fun x => minuteOf x.t).foldl Nat.max (minuteOf r.t) -
        (rest.map fun x => minuteOf x.t).foldl Nat.min (minuteOf r.t),
      rfl, ?_, ?_, ?_⟩
    · rcases foldl_min_attained (rest.map fun x => minuteOf x.t) (minuteOf r.t)
        with h | h
      · exact ⟨r, List.mem_cons_self r rest, h.symm⟩
      · rcases List.mem_map.1 h with ⟨x, hx, hx2⟩
        exact ⟨x, List.mem_cons_of_mem r hx, hx2⟩
    · have heq : (rest.map fun x => minuteOf x.t).foldl Nat.min (minuteOf r.t) +
          ((rest.map fun x => minuteOf x.t).foldl Nat.max (minuteOf r.t) -
            (rest.map fun x => minuteOf x.t).foldl Nat.min (minuteOf r.t)) =
          (rest.map fun x => minuteOf x.t).foldl Nat.max (minuteOf r.t) := by
        omega
      rw [heq]
      rcases foldl_max_attained (rest.map fun x => minuteOf x.t) (minuteOf r.t)
        with h | h
      · exact ⟨r, List.mem_cons_self r rest, h.symm⟩
      · rcases List.mem_map.1 h with ⟨x, hx, hx2⟩
        exact ⟨x, List.mem_cons_of_mem r hx, hx2⟩
    · intro x hx
      have hmem : minuteOf x.t = minuteOf r.t ∨
          minuteOf x.t ∈ rest.map fun y => minuteOf y.t := by
        rcases List.mem_cons.1 hx with rfl | hx2
        · exact Or.inl rfl
        · exact Or.inr (List.mem_map_of_mem _ hx2)
      constructor
      · rcases hmem with h | h
        · rw [h]; exact foldl_min_le_init _ _
        · exact foldl_min_le_mem _ _ _ h
      · have hle : minuteOf x.t ≤
            (rest.map fun y => minuteOf y.t).foldl Nat.max (minuteOf r.t) := by
          rcases hmem with h | h
          · rw [h]; exact init_le_foldl_max _ _
          · exact mem_le_foldl_max _ _ _ h
        omega

lemma calculateIbi_length (raw : List RawSample) :
    (calculateIbi raw).length = raw.length := by
  simp [calculateIbi]

lemma calculateIbi_ibi_fin (raw : List RawSample)
    (hb : ∀ s ∈ raw, 0 < s.bpm) :
    ∀ r ∈ calculateIbi raw, ∃ q, r.ibi = .fin q := by
  intro r hr
  unfold calculateIbi at hr
  rcases List.mem_map.1 hr with ⟨i, hi, rfl⟩
  have hilt : i < raw.length := List.mem_range.1 hi
  have hs : raw[i]! ∈ raw := by
    rw [getElem!_pos raw i hilt]
    exact List.getElem_mem hilt
  have hbpm := hb _ hs
  exact ⟨qdiv 60000 (raw[i]!).bpm, by simp [Nat.lt_irrefl, ne_of_gt hbpm]⟩

lemma interpVal_fin (pa pb : ℕ × EFloat) (m : ℕ) (qa qb : ℚ)
    (ha : pa.2 = .fin qa) (hb : pb.2 = .fin qb) (hlt : pa.1 < pb.1) :
    ∃ q, interpVal pa pb m = .fin q := by
  have hne0 : qsub (pb.1 : ℚ) (pa.1 : ℚ) ≠ 0 := by
    rw [qsub_eq_sub]
    exact sub_ne_zero_of_ne (by exact_mod_cast Nat.ne_of_gt hlt)
  simp only [interpVal, ha, hb, EFloat.sub, EFloat.neg, EFloat.add,
    EFloat.mul, EFloat.div, if_neg hne0]
  exact ⟨_, rfl⟩

lemma interpolateIbi_length (l : List (ℕ × EFloat)) :
    (interpolateIbi l).length = l.length := by
  simp [interpolateIbi]

lemma interpolateIbi_get (l : List (ℕ × EFloat)) (i : ℕ) (hi : i < l.length) :
    (interpolateIbi l)[i]! =
      (if (l[i]!).2.isna then
        match findPrev l i, findNext l i with
        | some a, some b => ((l[i]!).1, interpVal a b (l[i]!).1)
        | some a, none => ((l[i]!).1, a.2)
        | none, _ => ((l[i]!).1, (l[i]!).2)
      else l[i]!) := by
  have hlen : i < (interpolateIbi l).length := by rw [interpolateIbi_length]; exact hi
  rw [getElem!_pos (interpolateIbi l) i hlen]
  unfold interpolateIbi
  rw [List.getElem_map, List.getElem_range]

lemma findPrevNext_spec (l : List (ℕ × EFloat))
    (hfirst : (l[0]!).2.isna = false)
    (hlast : (l[l.length - 1]!).2.isna = false)
    (hfin : ∀ p ∈ l, p.2.isna = false → ∃ q, p.2 = .fin q)
    (hmono : List.Pairwise (fun p q : ℕ × EFloat => p.1 < q.1) l)
    (i : ℕ) (hi : i < l.length) (hna : (l[i]!).2.isna = true) :
    ∃ pa pb, findPrev l i = some pa ∧ findNext l i = some pb ∧
      pa.1 < pb.1 ∧ (∃ qa, pa.2 = .fin qa) ∧ (∃ qb, pb.2 = .fin qb) := by
  have hi0 : 0 < i := by
    rcases Nat.eq_zero_or_pos i with rfl | h
    · rw [hna] at hfirst; cases hfirst
    · exact h
  have hil : i < l.length - 1 := by
    rcases Nat.lt_or_ge i (l.length - 1) with h | h
    · exact h
    · exfalso
      have hieq : i = l.length - 1 := by omega
      rw [hieq, hlast] at hna
      cases hna
  have h0lt : 0 < l.length := Nat.lt_of_le_of_lt (Nat.zero_le i) hi
  -- the first entry lies strictly before position i and is valid
  have hmem0 : l[0]! ∈ l.take i := by
    have h1 : 0 < (l.take i).length := by rw [List.length_take]; omega
    have h2 : (l.take i)[0]! = l[0]! := by
      rw [listGetBang _ _ h1, getElem!_pos l 0 h0lt]
      exact List.getElem_take l
    rw [← h2, listGetBang _ _ h1]
    exact List.getElem_mem h1
  have hfilterPrev : (l.take i).filter (fun p => !p.2.isna) ≠ [] := by
    intro hemp
    have hm : l[0]! ∈ (l.take i).filter (fun p => !p.2.isna) :=
      List.mem_filter.2 ⟨hmem0, by rw [hfirst]; rfl⟩
    rw [hemp] at hm
    cases hm
  -- the last entry lies strictly after position i and is valid
  have hlt2 : l.length - 1 < l.length := by omega
  have hlastmem : l[l.length - 1]! ∈ l.drop (i + 1) := by
    have hlt3 : l.length - 1 - (i + 1) < (l.drop (i + 1)).length := by
      rw [List.length_drop]
      omega
    rw [getElem!_pos l (l.length - 1) hlt2]
    refine List.mem_iff_getElem.2 ⟨l.length - 1 - (i + 1), hlt3, ?_⟩
    rw [List.getElem_drop l]
    congr 1
    omega
  have hfilterNext : (l.drop (i + 1)).filter (fun p => !p.2.isna) ≠ [] := by
    intro hemp
    have hm : l[l.length - 1]! ∈ (l.drop (i + 1)).filter (fun p => !p.2.isna) :=
      List.mem_filter.2 ⟨hlastmem, by rw [hlast]; rfl⟩
    rw [hemp] at hm
    cases hm
  refine ⟨((l.take i).filter (fun p => !p.2.isna)).getLast hfilterPrev,
    ((l.drop (i + 1)).filter (fun p => !p.2.isna)).head hfilterNext,
    ?_, ?_, ?_, ?_, ?_⟩
  · exact List.getLast?_eq_getLast _ hfilterPrev
  · exact List.head?_eq_head hfilterNext
  · have hpa := List.getLast_mem hfilterPrev
    have hpb := List.head_mem hfilterNext
    have hpa2 := List.mem_of_mem_filter hpa
    have hpb2 := List.mem_of_mem_filter hpb
    rcases List.mem_iff_getElem.1 hpa2 with ⟨a, ha, hya⟩
    rcases List.mem_iff_getElem.1 hpb2 with ⟨jb, hjb, hxb⟩
    rw [List.getElem_take] at hya
    rw [List.getElem_drop] at hxb
    have hlenA : a < l.length := by
      rw [List.length_take] at ha
      omega
    have hlenB : i + 1 + jb < l.length := by
      rw [List.length_drop] at hjb
      omega
    have hab : a < i + 1 + jb := by
      rw [List.length_take] at ha
      omega
    have hrel := List.pairwise_iff_getElem.1 hmono a (i + 1 + jb) hlenA hlenB hab
    rw [hya, hxb] at hrel
    exact hrel
  · have hpa := List.getLast_mem hfilterPrev
    have h1 := List.mem_of_mem_filter hpa
    have h2 := List.of_mem_filter hpa
    exact hfin _ (List.mem_of_mem_take h1) (by simpa using h2)
  · have hpb := List.head_mem hfilterNext
    have h1 := List.mem_of_mem_filter hpb
    have h2 := List.of_mem_filter hpb
    exact hfin _ (List.mem_of_mem_drop h1) (by simpa using h2)

lemma meanE_nil : meanE [] = .nan := rfl

lemma ibiColumn_eq (raw : List RawSample) :
    ibiColumn raw = (gridMinutes (calculateIbi raw)).map fun m =>
      (m, meanE (((calculateIbi raw).filter fun r => minuteOf r.t = m).map
        fun r => r.ibi)) := by
  unfold ibiColumn minuteRows
  rw [List.map_map]
  rfl

lemma ibiColumn_props (raw : List RawSample) (hne : raw ≠ [])
    (hb : ∀ s ∈ raw, 0 < s.bpm) :
    0 < (ibiColumn raw).length ∧
    ((ibiColumn raw)[0]!).2.isna = false ∧
    ((ibiColumn raw)[(ibiColumn raw).length - 1]!).2.isna = false ∧
    (∀ p ∈ ibiColumn raw, p.2.isna = false → ∃ q, p.2 = .fin q) ∧
    (∀ p ∈ ibiColumn raw, p.2.isna = true →
      (calculateIbi raw).filter (fun r => minuteOf r.t = p.1) = []) ∧
    List.Pairwise (fun p q : ℕ × EFloat => p.1 < q.1) (ibiColumn raw) := by
  have hrows : calculateIbi raw ≠ [] := by
    intro h
    have := calculateIbi_length raw
    rw [h] at this
    exact hne (List.length_eq_zero.1 this.symm)
  have hifin := calculateIbi_ibi_fin raw hb
  rcases gridMinutes_spec (calculateIbi raw) hrows with
    ⟨a, n, hgrid, ⟨ra, hra, hra2⟩, ⟨rb, hrb, hrb2⟩, hbounds⟩
  have hval : ∀ m, ((calculateIbi raw).filter fun r => minuteOf r.t = m) ≠ [] →
      ∃ q, meanE (((calculateIbi raw).filter fun r => minuteOf r.t = m).map
        fun r => r.ibi) = .fin q := by
    intro m hm
    apply meanE_all_fin
    · intro v hv
      rcases List.mem_map.1 hv with ⟨r, hr, rfl⟩
      exact hifin r (List.mem_of_mem_filter hr)
    · intro hmap
      exact hm (List.map_eq_nil_iff.1 hmap)
  have hlen : (ibiColumn raw).length = n + 1 := by
    rw [ibiColumn_eq, List.length_map, hgrid, List.length_range']
  have hget : ∀ i, i < n + 1 → (ibiColumn raw)[i]! =
      (a + i, meanE (((calculateIbi raw).filter fun r =>
        minuteOf r.t = a + i).map fun r => r.ibi)) := by
    intro i hi
    rw [ibiColumn_eq]
    have hi2 : i < ((gridMinutes (calculateIbi raw)).map fun m =>
        (m, meanE (((calculateIbi raw).filter fun r =>
          minuteOf r.t = m).map fun r => r.ibi))).length := by
      rw [List.length_map, hgrid, List.length_range']
      exact hi
    rw [listGetBang _ _ hi2, List.getElem_map]
    congr 1 <;> simp [hgrid, List.getElem_range']
  have hsampled : ∀ m, (∃ r ∈ calculateIbi raw, minuteOf r.t = m) →
      ((calculateIbi raw).filter fun r => minuteOf r.t = m) ≠ [] := by
    intro m ⟨r, hr, hr2⟩
    intro hemp
    have : r ∈ (calculateIbi raw).filter fun x => minuteOf x.t = m :=
      List.mem_filter.2 ⟨hr, by simp [hr2]⟩
    rw [hemp] at this
    cases this
  refine ⟨by rw [hlen]; omega, ?_, ?_, ?_, ?_, ?_⟩
  · rw [hget 0 (by omega)]
    rcases hval a (hsampled a ⟨ra, hra, hra2⟩) with ⟨q, hq⟩
    simp [hq, EFloat.isna]
  · rw [hlen]
    have h1 : n + 1 - 1 = n := by omega
    rw [h1, hget n (by omega)]
    rcases hval (a + n) (hsampled (a + n) ⟨rb, hrb, hrb2⟩) with ⟨q, hq⟩
    simp [hq, EFloat.isna]
  · intro p hp hpna
    rw [ibiColumn_eq] at hp
    rcases List.mem_map.1 hp with ⟨m, _, rfl⟩
    cases hflt : (calculateIbi raw).filter fun r => minuteOf r.t = m with
    | nil => rw [hflt] at hpna; cases hpna
    | cons x xs =>
      rcases hval m (by rw [hflt]; intro h2; cases h2) with ⟨q, hq⟩
      exact ⟨q, by rw [← hflt]; exact hq⟩
  · intro p hp hpna
    rw [ibiColumn_eq] at hp
    rcases List.mem_map.1 hp with ⟨m, _, rfl⟩
    cases hflt : (calculateIbi raw).filter fun r => minuteOf r.t = m with
    | nil => rfl
    | cons x xs =>
      exfalso
      rcases hval m (by rw [hflt]; intro h2; cases h2) with ⟨q, hq⟩
      rw [hq] at hpna
      cases hpna
  · rw [ibiColumn_eq, hgrid]
    have hpw := List.pairwise_lt_range' a (n + 1)
    exact (List.pairwise_map.2 (by
      apply hpw.imp
      intro x y hxy
      exact hxy))

lemma interpolateIbi_all_fin (l : List (ℕ × EFloat))
    (hfirst : (l[0]!).2.isna = false)
    (hlast : (l[l.length - 1]!).2.isna = false)
    (hfin : ∀ p ∈ l, p.2.isna = false → ∃ q, p.2 = .fin q)
    (hmono : List.Pairwise (fun p q : ℕ × EFloat => p.1 < q.1) l) :
    ∀ p ∈ interpolateIbi l, ∃ q, p.2 = .fin q := by
  intro p hp
  unfold interpolateIbi at hp
  rcases List.mem_map.1 hp with ⟨i, hir, hpe⟩
  have hi : i < l.length := List.mem_range.1 hir
  have hbody := interpolateIbi_get l i hi
  have hilen : i < (interpolateIbi l).length := by
    rw [interpolateIbi_length]
    exact hi
  have hpi : p = (interpolateIbi l)[i]! := by
    rw [getElem!_pos (interpolateIbi l) i hilen]
    unfold interpolateIbi
    rw [List.getElem_map, List.getElem_range]
    exact hpe.symm
  rw [hpi, hbody]
  by_cases hna : (l[i]!).2.isna
  · rcases findPrevNext_spec l hfirst hlast hfin hmono i hi hna with
      ⟨pa, pb, hpa, hpb, hlt, ⟨qa, hqa⟩, ⟨qb, hqb⟩⟩
    rw [if_pos hna, hpa, hpb]
    exact interpVal_fin pa pb _ qa qb hqa hqb hlt
  · rw [if_neg hna]
    apply hfin
    · rw [getElem!_pos l i hi]
      exact List.getElem_mem hi
    · exact Bool.not_eq_true _ ▸ (by simpa using hna)

/-- C3: on valid input (nonempty, positive bpm), every window reaching the
feature extractor carries a nonempty list of non-NaN IBI values -- the first
and last grid minutes always hold samples, interior gaps are filled by the
interpolation, and the window grouping only creates keys with at least one
minute row. -/
theorem surviving_windows_nonempty (raw : List RawSample) (hne : raw ≠ [])
    (hb : ∀ s ∈ raw, 0 < s.bpm) :
    ∀ w ∈ process raw, w.ibi ≠ [] ∧ ∀ v ∈ w.ibi, v.isna = false := by
  obtain ⟨hpos, hfirst, hlast, hfin, hempty, hmono⟩ := ibiColumn_props raw hne hb
  have hallfin := interpolateIbi_all_fin (ibiColumn raw) hfirst hlast hfin hmono
  intro w hw
  simp only [process, resampleToWindows, List.mem_map] at hw
  obtain ⟨w1, hw1, rfl⟩ := hw
  have hw2 := List.mem_of_mem_filter hw1
  simp only [List.mem_map] at hw2
  obtain ⟨k, hk, rfl⟩ := hw2
  have hkey := List.mem_dedup.1 hk
  simp only [List.mem_map] at hkey
  obtain ⟨r0, hr0, hkr0⟩ := hkey
  have hr0g : r0 ∈ (mergedMinutes (calculateIbi raw)).filter
      (fun r => r.1 / 15 = k) := List.mem_filter.2 ⟨hr0, by simp [hkr0]⟩
  have hmergedfin : ∀ r ∈ mergedMinutes (calculateIbi raw),
      ∃ q, r.2.2 = .fin q := by
    intro r hr
    unfold mergedMinutes at hr
    rcases List.mem_map.1 hr with ⟨pr, hpr, rfl⟩
    exact hallfin pr.2 (List.of_mem_zip hpr).2
  have hsub : ∀ v ∈ ((mergedMinutes (calculateIbi raw)).filter
      (fun r => r.1 / 15 = k)).map (fun r => r.2.2), v.isna = false := by
    intro v hv
    rcases List.mem_map.1 hv with ⟨r, hrg, rfl⟩
    rcases hmergedfin r (List.mem_of_mem_filter hrg) with ⟨q, hq⟩
    rw [hq]
    rfl
  constructor
  · have hfeq : (((mergedMinutes (calculateIbi raw)).filter
        (fun r => r.1 / 15 = k)).map (fun r => r.2.2)).filter
          (fun v => !v.isna) =
        ((mergedMinutes (calculateIbi raw)).filter
          (fun r => r.1 / 15 = k)).map (fun r => r.2.2) := by
      apply List.filter_eq_self.2
      intro v hv
      rw [hsub v hv]
      rfl
    show (((mergedMinutes (calculateIbi raw)).filter
        (fun r => r.1 / 15 = k)).map (fun r => r.2.2)).filter
          (fun v => !v.isna) ≠ []
    rw [hfeq]
    simp only [ne_eq, List.map_eq_nil_iff]
    exact List.ne_nil_of_mem hr0g
  · intro v hv
    have := List.of_mem_filter hv
    simpa using this

/-- Witness: surviving_windows_nonempty at the gap input (the window that
contains an interpolated minute still has a nonempty IBI list). -/
theorem surviving_windows_nonempty_witness :
    ((process gapRaw)[0]!).ibi ≠ [] :=
  (surviving_windows_nonempty gapRaw (by decide) (by decide)
    ((process gapRaw)[0]!) (by decide)).1

/-- C4: in resample_to_windows, a missing per-minute ibi value is filled by
linear interpolation weighted by the actual minute positions of the
surrounding known points; known values are left unchanged; the boundary
minutes of the grid are never missing (so no leading/trailing fill occurs on
valid input); and the per-minute bpm column keeps its NaN at gap minutes --
bpm is not interpolated. -/
theorem interpolation_time_weighted (raw : List RawSample) (hne : raw ≠ [])
    (hb : ∀ s ∈ raw, 0 < s.bpm) :
    (∀ i, i < (ibiColumn raw).length → ((ibiColumn raw)[i]!).2.isna = false →
      (interpolateIbi (ibiColumn raw))[i]! = (ibiColumn raw)[i]!) ∧
    (∀ i, i < (ibiColumn raw).length → ((ibiColumn raw)[i]!).2.isna = true →
      ∃ pa pb, findPrev (ibiColumn raw) i = some pa ∧
        findNext (ibiColumn raw) i = some pb ∧
        (interpolateIbi (ibiColumn raw))[i]! =
          (((ibiColumn raw)[i]!).1,
            interpVal pa pb (((ibiColumn raw)[i]!).1))) ∧
    (((ibiColumn raw)[0]!).2.isna = false ∧
      ((ibiColumn raw)[(ibiColumn raw).length - 1]!).2.isna = false) ∧
    (∀ i, i < (ibiColumn raw).length → ((ibiColumn raw)[i]!).2.isna = true →
      ((minuteRows (calculateIbi raw))[i]!).bpm = .nan) := by
  obtain ⟨hpos, hfirst, hlast, hfin, hempty, hmono⟩ := ibiColumn_props raw hne hb
  refine ⟨?_, ?_, ⟨hfirst, hlast⟩, ?_⟩
  · intro i hi hna
    rw [interpolateIbi_get (ibiColumn raw) i hi, if_neg (by simp [hna])]
  · intro i hi hna
    rcases findPrevNext_spec (ibiColumn raw) hfirst hlast hfin hmono i hi hna
      with ⟨pa, pb, hpa, hpb, hlt, _, _⟩
    refine ⟨pa, pb, hpa, hpb, ?_⟩
    rw [interpolateIbi_get (ibiColumn raw) i hi, if_pos hna, hpa, hpb]
  · intro i hi hna
    have hmem : (ibiColumn raw)[i]! ∈ ibiColumn raw := by
      rw [listGetBang _ _ hi]
      exact List.getElem_mem hi
    have hflt := hempty _ hmem hna
    have hilen : i < (minuteRows (calculateIbi raw)).length := by
      have : (ibiColumn raw).length = (minuteRows (calculateIbi raw)).length := by
        unfold ibiColumn
        rw [List.length_map]
      rw [← this]
      exact hi
    have hcomp : (ibiColumn raw)[i]! =
        (((minuteRows (calculateIbi raw))[i]!).m,
          ((minuteRows (calculateIbi raw))[i]!).ibi) := by
      have hi2 : i < ((minuteRows (calculateIbi raw)).map
          (fun r => (r.m, r.ibi))).length := by
        rw [List.length_map]
        exact hilen
      show ((minuteRows (calculateIbi raw)).map (fun r => (r.m, r.ibi)))[i]! = _
      rw [listGetBang _ _ hi2, List.getElem_map, listGetBang _ _ hilen]
    have hgl : i < (gridMinutes (calculateIbi raw)).length := by
      have hlm : (minuteRows (calculateIbi raw)).length =
          (gridMinutes (calculateIbi raw)).length := by
        unfold minuteRows
        rw [List.length_map]
      rw [← hlm]
      exact hilen
    have hrow : (minuteRows (calculateIbi raw))[i]! =
        MinuteRow.mk ((gridMinutes (calculateIbi raw)).get ⟨i, hgl⟩)
          (meanE (((calculateIbi raw).filter fun r =>
            minuteOf r.t = (gridMinutes (calculateIbi raw)).get ⟨i, hgl⟩).map
              fun r => EFloat.fin r.bpm))
          (meanE (((calculateIbi raw).filter fun r =>
            minuteOf r.t = (gridMinutes (calculateIbi raw)).get ⟨i, hgl⟩).map
              fun r => r.ibi)) := by
      show ((gridMinutes (calculateIbi raw)).map (fun m =>
        MinuteRow.mk m
          (meanE (((calculateIbi raw).filter fun r =>
            minuteOf r.t = m).map fun r => EFloat.fin r.bpm))
          (meanE (((calculateIbi raw).filter fun r =>
            minuteOf r.t = m).map fun r => r.ibi))))[i]! = _
      have hi3 : i < ((gridMinutes (calculateIbi raw)).map (fun m =>
        MinuteRow.mk m
          (meanE (((calculateIbi raw).filter fun r =>
            minuteOf r.t = m).map fun r => EFloat.fin r.bpm))
          (meanE (((calculateIbi raw).filter fun r =>
            minuteOf r.t = m).map fun r => r.ibi)))).length := by
        rw [List.length_map]
        exact hgl
      rw [listGetBang _ _ hi3, List.getElem_map]
      rfl
    rw [hcomp, hrow] at hflt
    rw [hrow]
    show meanE (((calculateIbi raw).filter fun r =>
      minuteOf r.t = (gridMinutes (calculateIbi raw)).get ⟨i, hgl⟩).map
        fun r => EFloat.fin r.bpm) = EFloat.nan
    rw [hflt]
    rfl

/-- Witness: interpolation_time_weighted at the gap input (boundary minutes
are valid; the sampled minute 0 passes through interpolation unchanged). -/
theorem interpolation_time_weighted_witness :
    (((ibiColumn gapRaw)[0]!).2.isna = false ∧
      ((ibiColumn gapRaw)[(ibiColumn gapRaw).length - 1]!).2.isna = false) ∧
    (interpolateIbi (ibiColumn gapRaw))[0]! = (ibiColumn gapRaw)[0]! :=
  ⟨(interpolation_time_weighted gapRaw (by decide) (by decide)).2.2.1,
    (interpolation_time_weighted gapRaw (by decide) (by decide)).1 0
      (by decide) (by decide)⟩

lemma elt_irrefl (a : EFloat) : EFloat.lt a a = false := by
  cases a <;> simp [EFloat.lt]

lemma elt_asymm {a b : EFloat} (h : EFloat.lt a b = true) :
    EFloat.lt b a = false := by
  cases a <;> cases b <;> simp_all [EFloat.lt]
  linarith

lemma elt_trans {a b c : EFloat} (h1 : EFloat.lt a b = true)
    (h2 : EFloat.lt b c = true) : EFloat.lt a c = true := by
  cases a <;> cases b <;> cases c <;> simp_all [EFloat.lt]
  linarith

lemma npLT_asymm {a b : EFloat} (h : npLT a b = true) : npLT b a = false := by
  cases a <;> cases b <;> simp_all [npLT, EFloat.lt, EFloat.isna]
  linarith

lemma npLT_trans {a b c : EFloat} (h1 : npLT a b = true)
    (h2 : npLT b c = true) : npLT a c = true := by
  cases a <;> cases b <;> cases c <;> simp_all [npLT, EFloat.lt, EFloat.isna]
  linarith

lemma npLT_conn {a b : EFloat} (h1 : npLT a b = false)
    (h2 : npLT b a = false) : a = b := by
  cases a <;> cases b <;> simp_all [npLT, EFloat.lt, EFloat.isna]
  exact le_antisymm (by linarith) (by linarith)

lemma npLT_eq_lt {a b : EFloat} (hb : b.isna = false) :
    npLT a b = EFloat.lt a b := by
  simp [npLT, hb]

lemma elt_total {a b : EFloat} (ha : a.isna = false) (hb : b.isna = false) :
    EFloat.lt a b = true ∨ EFloat.lt b a = true ∨ a = b := by
  cases a <;> cases b <;> simp_all [EFloat.lt, EFloat.isna]
  rename_i x y
  rcases lt_trichotomy x y with h | h | h <;> tauto

lemma tagLT_trans {v : List EFloat} {x y z : ℕ} (h1 : tagLT v x y)
    (h2 : tagLT v y z) : tagLT v x z := by
  rcases h1 with h1 | ⟨e1, l1⟩
  · rcases h2 with h2 | ⟨e2, l2⟩
    · exact Or.inl (elt_trans h1 h2)
    · exact Or.inl (e2 ▸ h1)
  · rcases h2 with h2 | ⟨e2, l2⟩
    · exact Or.inl (e1 ▸ h2)
    · exact Or.inr ⟨e1.trans e2, Nat.lt_trans l1 l2⟩

lemma insertTagRev_perm (v : List EFloat) (i : ℕ) (acc : List ℕ) :
    (insertTagRev v i acc).Perm (i :: acc) := by
  induction acc with
  | nil => exact List.Perm.refl _
  | cons x xs ih =>
    unfold insertTagRev
    by_cases h : npLT (v[i]!) (v[x]!)
    · rw [if_pos h]
      exact (ih.cons x).trans (List.Perm.swap i x xs)
    · rw [if_neg h]

lemma insertTagRev_pairwise (v : List EFloat) (i : ℕ) (acc : List ℕ)
    (hacc : List.Pairwise (fun x y => tagLT v y x) acc)
    (hidx : ∀ x ∈ acc, x < i)
    (hval : ∀ x ∈ acc, (v[x]!).isna = false)
    (hvi : (v[i]!).isna = false) :
    List.Pairwise (fun x y => tagLT v y x) (insertTagRev v i acc) := by
  induction acc with
  | nil => simp [insertTagRev]
  | cons x xs ih =>
    have hvx := hval x (List.mem_cons_self x xs)
    unfold insertTagRev
    by_cases h : npLT (v[i]!) (v[x]!)
    · rw [if_pos h]
      have hix : tagLT v i x := by
        rw [npLT_eq_lt hvx] at h
        exact Or.inl h
      refine List.Pairwise.cons ?_ (ih (List.Pairwise.sublist
        (List.sublist_cons_self x xs) hacc) ?_ ?_)
      · intro y hy
        have hy2 := (insertTagRev_perm v i xs).mem_iff.1 hy
        rcases List.mem_cons.1 hy2 with rfl | hy3
        · exact hix
        · exact List.rel_of_pairwise_cons hacc hy3
      · intro y hy
        exact hidx y (List.mem_cons_of_mem x hy)
      · intro y hy
        exact hval y (List.mem_cons_of_mem x hy)
    · rw [if_neg h]
      have hxi : tagLT v x i := by
        rw [npLT_eq_lt hvx] at h
        rcases elt_total hvx hvi with h2 | h2 | h2
        · exact Or.inl h2
        · exact absurd h2 (by simpa using h)
        · exact Or.inr ⟨h2, hidx x (List.mem_cons_self x xs)⟩
      refine List.Pairwise.cons ?_ hacc
      intro y hy
      rcases List.mem_cons.1 hy with rfl | hy2
      · exact hxi
      · exact tagLT_trans (List.rel_of_pairwise_cons hacc hy2) hxi

lemma insFold_spec (v : List EFloat)
    (hv : ∀ j, j < v.length → (v[j]!).isna = false) :
    ∀ k, k ≤ v.length →
      ((List.range k).foldl (fun acc i => insertTagRev v i acc) []).Perm
        (List.range k) ∧
      List.Pairwise (fun x y => tagLT v y x)
        ((List.range k).foldl (fun acc i => insertTagRev v i acc) []) := by
  intro k
  induction k with
  | zero => intro _; simp
  | succ k ih =>
    intro hk
    obtain ⟨hperm, hpw⟩ := ih (Nat.le_of_succ_le hk)
    rw [List.range_succ, List.foldl_append, List.foldl_cons, List.foldl_nil]
    constructor
    · exact (insertTagRev_perm v k _).trans ((hperm.cons k).trans
        (List.perm_append_singleton k (List.range k)).symm)
    · apply insertTagRev_pairwise v k _ hpw
      · intro x hx
        exact List.mem_range.1 (hperm.mem_iff.1 hx)
      · intro x hx
        have hxk := List.mem_range.1 (hperm.mem_iff.1 hx)
        exact hv x (by omega)
      · exact hv k (by omega)

lemma insArgsortSmall_spec (v : List EFloat)
    (hv : ∀ j, j < v.length → (v[j]!).isna = false) :
    (insArgsortSmall v).Perm (List.range v.length) ∧
    List.Pairwise (tagLT v) (insArgsortSmall v) := by
  obtain ⟨hp, hw⟩ := insFold_spec v hv v.length (Nat.le_refl _)
  unfold insArgsortSmall
  exact ⟨(List.reverse_perm _).trans hp, List.pairwise_reverse.2 hw⟩

lemma sorted_perm_eq {α : Type} {R : α → α → Prop} :
    ∀ {l1 l2 : List α}, l1.Perm l2 → List.Pairwise R l1 → List.Pairwise R l2 →
      (∀ a ∈ l1, ∀ b ∈ l1, R a b → R b a → a = b) → l1 = l2 := by
  intro l1
  induction l1 with
  | nil =>
    intro l2 hp _ _ _
    exact hp.nil_eq
  | cons a t ih =>
    intro l2 hp hs1 hs2 hanti
    cases l2 with
    | nil =>
      exact absurd hp.symm.nil_eq (by simp)
    | cons b t2 =>
      have hab : a = b := by
        by_cases h : a = b
        · exact h
        · have ha2 : a ∈ b :: t2 := hp.subset (List.mem_cons_self a t)
          have hb1 : b ∈ a :: t := hp.symm.subset (List.mem_cons_self b t2)
          have ha3 : a ∈ t2 := by
            rcases List.mem_cons.1 ha2 with h1 | h1
            · exact absurd h1 h
            · exact h1
          have hb3 : b ∈ t := by
            rcases List.mem_cons.1 hb1 with h1 | h1
            · exact absurd h1.symm h
            · exact h1
          exact hanti a (List.mem_cons_self a t) b (List.mem_cons_of_mem a hb3)
            (List.rel_of_pairwise_cons hs1 hb3)
            (List.rel_of_pairwise_cons hs2 ha3)
      subst hab
      have hteq := ih hp.cons_inv (List.Pairwise.of_cons hs1)
        (List.Pairwise.of_cons hs2)
        (fun x hx y hy => hanti x (List.mem_cons_of_mem a hx) y
          (List.mem_cons_of_mem a hy))
      rw [hteq]

lemma map_getElem_range {α : Type} [Inhabited α] (l : List α) :
    (List.range l.length).map (fun i => l[i]!) = l := by
  apply List.ext_getElem
  · simp
  · intro i h1 h2
    simp only [List.getElem_map, List.getElem_range]
    exact listGetBang l i h2

lemma range_map_rev (n : ℕ) :
    (List.range n).map (fun i => n - 1 - i) = (List.range n).reverse := by
  apply List.ext_getElem
  · simp
  · intro i h1 h2
    simp only [List.getElem_map, List.getElem_range, List.getElem_reverse,
      List.length_range]

lemma npLT_irrefl (x : EFloat) : npLT x x = false := by
  cases x <;> simp [npLT, EFloat.lt, EFloat.isna, lt_irrefl]

lemma mkLe_iff (u v : EFloat) (p q : ℕ) :
    mkLe u v p q = true ↔
      (npLT u v = true ∨ (npLT u v = false ∧ npLT v u = false ∧ p ≤ q)) := by
  cases h1 : npLT u v <;> cases h2 : npLT v u <;> simp [mkLe, h1, h2]

lemma mkLe_trans1 {u v w : EFloat} {p q r : ℕ} (h1 : mkLe u v p q = true)
    (h2 : mkLe v w q r = true) : mkLe u w p r = true := by
  rw [mkLe_iff] at h1 h2 ⊢
  rcases h1 with h1 | ⟨e1, f1, l1⟩
  · rcases h2 with h2 | ⟨e2, f2, l2⟩
    · exact Or.inl (npLT_trans h1 h2)
    · exact Or.inl ((npLT_conn e2 f2) ▸ h1)
  · rcases h2 with h2 | ⟨e2, f2, l2⟩
    · exact Or.inl ((npLT_conn e1 f1).symm ▸ h2)
    · have hev : v = w := npLT_conn e2 f2
      have heu : u = v := npLT_conn e1 f1
      exact Or.inr ⟨by rw [heu, hev, npLT_irrefl], by rw [heu, hev, npLT_irrefl],
        Nat.le_trans l1 l2⟩

lemma mkLe_trans2 {u v w : EFloat} {p q r : ℕ} (h1 : mkLe v u p q = true)
    (h2 : mkLe w v q r = true) : mkLe w u p r = true := by
  rw [mkLe_iff] at h1 h2 ⊢
  rcases h1 with h1 | ⟨e1, f1, l1⟩
  · rcases h2 with h2 | ⟨e2, f2, l2⟩
    · exact Or.inl (npLT_trans h2 h1)
    · exact Or.inl ((npLT_conn f2 e2).symm ▸ h1)
  · rcases h2 with h2 | ⟨e2, f2, l2⟩
    · exact Or.inl ((npLT_conn f1 e1) ▸ h2)
    · have hev : v = u := npLT_conn e1 f1
      have hwv : w = v := npLT_conn e2 f2
      exact Or.inr ⟨by rw [hwv, hev, npLT_irrefl], by rw [hwv, hev, npLT_irrefl],
        Nat.le_trans l1 l2⟩

lemma mkLe_total (u v : EFloat) (p q : ℕ) :
    mkLe u v p q = true ∨ mkLe v u q p = true := by
  rw [mkLe_iff, mkLe_iff]
  cases h1 : npLT u v
  · cases h2 : npLT v u
    · rcases Nat.le_total p q with h | h
      · exact Or.inl (Or.inr ⟨rfl, rfl, h⟩)
      · exact Or.inr (Or.inr ⟨rfl, rfl, h⟩)
    · exact Or.inr (Or.inl rfl)
  · exact Or.inl (Or.inl rfl)

lemma mkLe_antisymm {u v : EFloat} {p q : ℕ} (h1 : mkLe u v p q = true)
    (h2 : mkLe v u q p = true) : u = v ∧ p = q := by
  rw [mkLe_iff] at h1 h2
  rcases h1 with h1 | ⟨e1, f1, l1⟩
  · rcases h2 with h2 | ⟨e2, f2, l2⟩
    · exact absurd h2 (by rw [npLT_asymm h1]; simp)
    · exact absurd h1 (by rw [f2]; simp)
  · rcases h2 with h2 | ⟨e2, f2, l2⟩
    · exact absurd h2 (by rw [f1]; simp)
    · exact ⟨npLT_conn e1 f1, Nat.le_antisymm l1 l2⟩

lemma nargsort_asc_eq (v : List EFloat)
    (hv : ∀ j, j < v.length → (v[j]!).isna = false) (hlen : v.length ≤ 16) :
    nargsort v true = insArgsortSmall v := by
  have hfilter1 : ((List.range v.length).filter fun i => !(v[i]!).isna) =
      List.range v.length := by
    rw [List.filter_eq_self]
    intro i hi
    rw [hv i (List.mem_range.1 hi)]
    rfl
  have hfilter2 : ((List.range v.length).filter fun i => (v[i]!).isna) = [] := by
    rw [List.filter_eq_nil_iff]
    intro i hi
    rw [hv i (List.mem_range.1 hi)]
    simp
  have h1 : nargsort v true =
      ((npArgsort ((((List.range v.length).filter fun i => !(v[i]!).isna)).map
        fun i => v[i]!)).map
        fun p => (((List.range v.length).filter fun i => !(v[i]!).isna))[p]!)
      ++ ((List.range v.length).filter fun i => (v[i]!).isna) := rfl
  rw [h1, hfilter1, hfilter2, List.append_nil, map_getElem_range]
  unfold npArgsort
  rw [if_pos hlen]
  obtain ⟨hsp, _⟩ := insArgsortSmall_spec v hv
  have hmem : ∀ p ∈ insArgsortSmall v, (List.range v.length)[p]! = p := by
    intro p hp
    have hpn := List.mem_range.1 (hsp.subset hp)
    have hpl : p < (List.range v.length).length := by
      rw [List.length_range]
      exact hpn
    rw [listGetBang _ _ hpl, List.getElem_range]
  rw [List.map_congr_left hmem]
  exact List.map_id _

lemma nargsort_desc_eq (v : List EFloat)
    (hv : ∀ j, j < v.length → (v[j]!).isna = false) (hlen : v.length ≤ 16) :
    nargsort v false =
      ((insArgsortSmall v.reverse).map fun p => v.length - 1 - p).reverse := by
  have hfilter1 : ((List.range v.length).filter fun i => !(v[i]!).isna) =
      List.range v.length := by
    rw [List.filter_eq_self]
    intro i hi
    rw [hv i (List.mem_range.1 hi)]
    rfl
  have hfilter2 : ((List.range v.length).filter fun i => (v[i]!).isna) = [] := by
    rw [List.filter_eq_nil_iff]
    intro i hi
    rw [hv i (List.mem_range.1 hi)]
    simp
  have h1 : nargsort v false =
      (((npArgsort (((((List.range v.length).filter
          fun i => !(v[i]!).isna)).reverse).map fun i => v[i]!)).map
        fun p => ((((List.range v.length).filter
          fun i => !(v[i]!).isna)).reverse)[p]!).reverse)
      ++ ((List.range v.length).filter fun i => (v[i]!).isna) := rfl
  rw [h1, hfilter1, hfilter2, List.append_nil, List.map_reverse,
    map_getElem_range]
  unfold npArgsort
  rw [if_pos (by rw [List.length_reverse]; exact hlen)]
  have hv2 : ∀ j, j < v.reverse.length → ((v.reverse)[j]!).isna = false := by
    intro j hj
    have hj2 : j < v.length := by
      rw [List.length_reverse] at hj
      exact hj
    rw [listGetBang _ _ hj, List.getElem_reverse]
    have hk : v.length - 1 - j < v.length := by omega
    rw [← listGetBang _ _ hk]
    exact hv _ hk
  obtain ⟨hsp2, _⟩ := insArgsortSmall_spec v.reverse hv2
  have hmem : ∀ p ∈ insArgsortSmall v.reverse,
      ((List.range v.length).reverse)[p]! = v.length - 1 - p := by
    intro p hp
    have hpn : p < v.length := by
      have h3 := List.mem_range.1 (hsp2.subset hp)
      rw [List.length_reverse] at h3
      exact h3
    have hpl : p < ((List.range v.length).reverse).length := by
      rw [List.length_reverse, List.length_range]
      exact hpn
    rw [listGetBang _ _ hpl, List.getElem_reverse, List.getElem_range,
      List.length_range]
  exact congrArg List.reverse (List.map_congr_left hmem)

lemma sortRowsBy_asc_eq {α : Type} [Inhabited α] (rows : List α)
    (key : α → EFloat) (pos : α → ℕ)
    (hn : ∀ r ∈ rows, (key r).isna = false)
    (hlen : rows.length ≤ 16)
    (hpos : List.Pairwise (fun a b => pos a < pos b) rows) :
    sortRowsBy rows (rows.map key) true =
      rows.insertionSort
        (fun a b => mkLe (key a) (key b) (pos a) (pos b) = true) := by
  have hml : (rows.map key).length = rows.length := List.length_map rows key
  have hvkey : ∀ j, j < rows.length → (rows.map key)[j]! = key (rows[j]!) := by
    intro j hj
    have hj2 : j < (rows.map key).length := by
      rw [hml]
      exact hj
    rw [listGetBang _ _ hj2, List.getElem_map, listGetBang _ _ hj]
  have hv : ∀ j, j < (rows.map key).length →
      ((rows.map key)[j]!).isna = false := by
    intro j hj
    have hj2 : j < rows.length := by
      rw [hml] at hj
      exact hj
    rw [hvkey j hj2]
    apply hn
    rw [listGetBang _ _ hj2]
    exact List.getElem_mem hj2
  obtain ⟨hsp, hsw⟩ := insArgsortSmall_spec (rows.map key) hv
  have hSperm :
      ((insArgsortSmall (rows.map key)).map fun i => rows[i]!).Perm rows := by
    have h2 := hsp.map fun i => rows[i]!
    rw [hml, map_getElem_range rows] at h2
    exact h2
  unfold sortRowsBy
  rw [nargsort_asc_eq _ hv (by rw [hml]; exact hlen)]
  apply sorted_perm_eq
    (R := fun a b => mkLe (key a) (key b) (pos a) (pos b) = true)
  · exact hSperm.trans (List.perm_insertionSort _ rows).symm
  · rw [List.pairwise_map]
    refine List.Pairwise.imp_of_mem ?_ hsw
    intro p q hp hq hpq
    have hpn : p < rows.length := by
      rw [← hml]
      exact List.mem_range.1 (hsp.subset hp)
    have hqn : q < rows.length := by
      rw [← hml]
      exact List.mem_range.1 (hsp.subset hq)
    have hmemp : rows[p]! ∈ rows := by
      rw [listGetBang _ _ hpn]
      exact List.getElem_mem hpn
    have hmemq : rows[q]! ∈ rows := by
      rw [listGetBang _ _ hqn]
      exact List.getElem_mem hqn
    rw [mkLe_iff]
    rcases hpq with hlt | ⟨heq, hplt⟩
    · rw [hvkey p hpn, hvkey q hqn] at hlt
      refine Or.inl ?_
      rw [npLT_eq_lt (hn _ hmemq)]
      exact hlt
    · rw [hvkey p hpn, hvkey q hqn] at heq
      refine Or.inr ⟨by rw [heq, npLT_irrefl], by rw [heq, npLT_irrefl], ?_⟩
      have hlt2 := List.pairwise_iff_getElem.1 hpos p q hpn hqn hplt
      rw [listGetBang _ _ hpn, listGetBang _ _ hqn]
      exact Nat.le_of_lt hlt2
  · letI : IsTotal α fun a b => mkLe (key a) (key b) (pos a) (pos b) = true :=
      ⟨fun a b => mkLe_total (key a) (key b) (pos a) (pos b)⟩
    letI : IsTrans α fun a b => mkLe (key a) (key b) (pos a) (pos b) = true :=
      ⟨fun _ _ _ h1 h2 => mkLe_trans1 h1 h2⟩
    exact List.sorted_insertionSort _ rows
  · intro a ha b hb hab hba
    obtain ⟨_, hpq⟩ := mkLe_antisymm hab hba
    have ha2 : a ∈ rows := hSperm.subset ha
    have hb2 : b ∈ rows := hSperm.subset hb
    obtain ⟨ia, hia, rfl⟩ := List.mem_iff_getElem.1 ha2
    obtain ⟨ib, hib, rfl⟩ := List.mem_iff_getElem.1 hb2
    rcases Nat.lt_trichotomy ia ib with h | h | h
    · exact absurd hpq
        (Nat.ne_of_lt (List.pairwise_iff_getElem.1 hpos ia ib hia hib h))
    · rw [← listGetBang _ _ hia, ← listGetBang _ _ hib, h]
    · exact absurd hpq.symm
        (Nat.ne_of_lt (List.pairwise_iff_getElem.1 hpos ib ia hib hia h))

lemma sortRowsBy_desc_eq {α : Type} [Inhabited α] (rows : List α)
    (key : α → EFloat) (pos : α → ℕ)
    (hn : ∀ r ∈ rows, (key r).isna = false)
    (hlen : rows.length ≤ 16)
    (hpos : List.Pairwise (fun a b => pos a < pos b) rows) :
    sortRowsBy rows (rows.map key) false =
      rows.insertionSort
        (fun a b => mkLe (key b) (key a) (pos a) (pos b) = true) := by
  have hml : (rows.map key).length = rows.length := List.length_map rows key
  have hvkey : ∀ j, j < rows.length → (rows.map key)[j]! = key (rows[j]!) := by
    intro j hj
    have hj2 : j < (rows.map key).length := by
      rw [hml]
      exact hj
    rw [listGetBang _ _ hj2, List.getElem_map, listGetBang _ _ hj]
  have hv : ∀ j, j < (rows.map key).length →
      ((rows.map key)[j]!).isna = false := by
    intro j hj
    have hj2 : j < rows.length := by
      rw [hml] at hj
      exact hj
    rw [hvkey j hj2]
    apply hn
    rw [listGetBang _ _ hj2]
    exact List.getElem_mem hj2
  have hlenr : ((rows.map key).reverse).length = rows.length := by
    rw [List.length_reverse, hml]
  have hv2 : ∀ j, j < ((rows.map key).reverse).length →
      (((rows.map key).reverse)[j]!).isna = false := by
    intro j hj
    have hj2 : j < (rows.map key).length := by
      rw [List.length_reverse] at hj
      exact hj
    rw [listGetBang _ _ hj, List.getElem_reverse]
    have hk : (rows.map key).length - 1 - j < (rows.map key).length := by omega
    rw [← listGetBang _ _ hk]
    exact hv _ hk
  have hrev : ∀ j, j < rows.length →
      (((rows.map key).reverse)[j]!) = key (rows[rows.length - 1 - j]!) := by
    intro j hj
    have hjl : j < ((rows.map key).reverse).length := by
      rw [hlenr]
      exact hj
    rw [listGetBang _ _ hjl, List.getElem_reverse]
    have hk : (rows.map key).length - 1 - j < (rows.map key).length := by
      rw [hml]
      omega
    rw [← listGetBang _ _ hk, hml]
    exact hvkey _ (by omega)
  obtain ⟨hsp, hsw⟩ := insArgsortSmall_spec ((rows.map key).reverse) hv2
  have hLperm :
      ((((insArgsortSmall ((rows.map key).reverse)).map
        fun p => rows.length - 1 - p).reverse).map fun i => rows[i]!).Perm
        rows := by
    have h2 := hsp.map fun p => rows.length - 1 - p
    rw [hlenr, range_map_rev] at h2
    have h3 := ((List.reverse_perm _).trans h2).trans (List.reverse_perm _)
    have h4 := h3.map fun i => rows[i]!
    rw [map_getElem_range rows] at h4
    exact h4
  unfold sortRowsBy
  rw [nargsort_desc_eq _ hv (by rw [hml]; exact hlen), hml]
  apply sorted_perm_eq
    (R := fun a b => mkLe (key b) (key a) (pos a) (pos b) = true)
  · exact hLperm.trans (List.perm_insertionSort _ rows).symm
  · rw [List.pairwise_map, List.pairwise_reverse, List.pairwise_map]
    refine List.Pairwise.imp_of_mem ?_ hsw
    intro p q hp hq hpq
    have hpn : p < rows.length := by
      have h3 := List.mem_range.1 (hsp.subset hp)
      rw [hlenr] at h3
      exact h3
    have hqn : q < rows.length := by
      have h3 := List.mem_range.1 (hsp.subset hq)
      rw [hlenr] at h3
      exact h3
    have hip : rows.length - 1 - p < rows.length := by omega
    have hiq : rows.length - 1 - q < rows.length := by omega
    have hmemp : rows[rows.length - 1 - p]! ∈ rows := by
      rw [listGetBang _ _ hip]
      exact List.getElem_mem hip
    have hmemq : rows[rows.length - 1 - q]! ∈ rows := by
      rw [listGetBang _ _ hiq]
      exact List.getElem_mem hiq
    rw [mkLe_iff]
    rcases hpq with hlt | ⟨heq, hplt⟩
    · rw [hrev p hpn, hrev q hqn] at hlt
      refine Or.inl ?_
      rw [npLT_eq_lt (hn _ hmemq)]
      exact hlt
    · rw [hrev p hpn, hrev q hqn] at heq
      refine Or.inr ⟨by rw [heq, npLT_irrefl], by rw [heq, npLT_irrefl], ?_⟩
      have hidx : rows.length - 1 - q < rows.length - 1 - p := by omega
      have hlt2 := List.pairwise_iff_getElem.1 hpos _ _ hiq hip hidx
      rw [listGetBang _ _ hiq, listGetBang _ _ hip]
      exact Nat.le_of_lt hlt2
  · letI : IsTotal α fun a b => mkLe (key b) (key a) (pos a) (pos b) = true :=
      ⟨fun a b => mkLe_total (key b) (key a) (pos a) (pos b)⟩
    letI : IsTrans α fun a b => mkLe (key b) (key a) (pos a) (pos b) = true :=
      ⟨fun _ _ _ h1 h2 => mkLe_trans2 h1 h2⟩
    exact List.sorted_insertionSort _ rows
  · intro a ha b hb hab hba
    obtain ⟨_, hpq⟩ := mkLe_antisymm hab hba
    have ha2 : a ∈ rows := hLperm.subset ha
    have hb2 : b ∈ rows := hLperm.subset hb
    obtain ⟨ia, hia, rfl⟩ := List.mem_iff_getElem.1 ha2
    obtain ⟨ib, hib, rfl⟩ := List.mem_iff_getElem.1 hb2
    rcases Nat.lt_trichotomy ia ib with h | h | h
    · exact absurd hpq
        (Nat.ne_of_lt (List.pairwise_iff_getElem.1 hpos ia ib hia hib h))
    · rw [← listGetBang _ _ hia, ← listGetBang _ _ hib, h]
    · exact absurd hpq.symm
        (Nat.ne_of_lt (List.pairwise_iff_getElem.1 hpos ib ia hib hia h))

lemma sortedKeys_pairwise (l : List ℕ) :
    List.Pairwise (· < ·) (sortedKeys l) := by
  have h1 : List.Pairwise (· ≤ ·) (l.insertionSort (· ≤ ·)) :=
    List.sorted_insertionSort (· ≤ ·) l
  have h2 : List.Pairwise (· ≤ ·) (sortedKeys l) :=
    List.Pairwise.sublist (List.dedup_sublist _) h1
  have h3 : List.Pairwise (· ≠ ·) (sortedKeys l) := List.nodup_dedup _
  exact (h2.and h3).imp fun hab => Nat.lt_of_le_of_ne hab.1 hab.2

lemma hourGroups_pairwise (recs : List FeatureRecord) :
    List.Pairwise (fun a b => a.1 < b.1) (hourGroups recs) := by
  unfold hourGroups
  rw [List.pairwise_map]
  exact (sortedKeys_pairwise _).imp fun h => h

lemma workweekBaseRows_pairwise (recs : List FeatureRecord) :
    List.Pairwise (fun a b => a.weekday < b.weekday) (workweekBaseRows recs) := by
  simp only [workweekBaseRows]
  rw [List.pairwise_map]
  have h1 : List.Pairwise (· < ·) (List.range 5) := List.pairwise_lt_range 5
  exact (List.Pairwise.sublist (List.filter_sublist _) h1).imp fun h => h

lemma rankAndLabel_map_rank (sorted : List WorkweekRow) :
    (rankAndLabel sorted).map WorkweekRow.difficulty_rank =
      List.range' 1 sorted.length := by
  simp only [rankAndLabel]
  rw [List.map_map]
  apply List.ext_getElem
  · simp
  · intro i h1 h2
    simp only [List.getElem_map, List.getElem_range, Function.comp,
      List.getElem_range']
    omega

lemma rankAndLabel_map_label (sorted : List WorkweekRow)
    (h5 : sorted.length ≤ 5) :
    (rankAndLabel sorted).map WorkweekRow.difficulty_label =
      difficultyVocab.take sorted.length := by
  simp only [rankAndLabel]
  rw [List.map_map]
  apply List.ext_getElem
  · simp [difficultyVocab]
    omega
  · intro i h1 h2
    simp only [List.getElem_map, List.getElem_range, Function.comp]
    exact List.getD_eq_getElem _ _ h2

lemma rankAndLabel_map_key (sorted : List WorkweekRow) :
    (rankAndLabel sorted).map wwKey = sorted.map wwKey := by
  simp only [rankAndLabel]
  rw [List.map_map]
  apply List.ext_getElem
  · simp
  · intro i h1 h2
    have hi : i < sorted.length := by simpa using h2
    simp only [List.getElem_map, List.getElem_range, Function.comp]
    rw [listGetBang _ _ hi]
    simp [wwKey]

set_option maxRecDepth 100000 in
/-- C6 (counterexample): on a record set with 17 populated hours of
identical mean RMSSD, get_best_hrv_hours does not return the stable
ordering the spec describes: the spec's tie-stable top-5 is hours 0-4, but
numpy's introsort partitioning (used above 16 elements) scrambles the tied
hours, returning hours 0, 9, 15, 14, 13. -/
theorem best_hours_tie_not_original_order :
    bestHrvHours cexHours17 5 ≠ specBestHours cexHours17 ∧
    (specBestHours cexHours17).map Prod.fst = [0, 1, 2, 3, 4] ∧
    (bestHrvHours cexHours17 5).map Prod.fst = [0, 9, 15, 14, 13] := by
  decide

/-- C6 (amended): for record sets with at most 16 populated hours whose
hourly mean RMSSD values are all non-NaN, best HRV hours are exactly the
stable top-5 by mean RMSSD descending and worst HRV hours exactly the
stable bottom-5 ascending, ties broken by original (ascending) hour
order; beyond 16 populated hours the tie order is not preserved. -/
theorem best_worst_hours_stable_small (recs : List FeatureRecord)
    (hlen : (hourGroups recs).length ≤ 16)
    (hn : ∀ p ∈ hourGroups recs, (p.2).isna = false) :
    bestHrvHours recs 5 = specBestHours recs ∧
    worstHrvHours recs 5 = specWorstHours recs := by
  constructor
  · show (sortRowsBy (hourGroups recs)
      ((hourGroups recs).map fun p => p.2) false).take 5 = _
    rw [sortRowsBy_desc_eq (hourGroups recs) (fun p => p.2) (fun p => p.1)
      hn hlen (hourGroups_pairwise recs)]
    rfl
  · show (sortRowsBy (hourGroups recs)
      ((hourGroups recs).map fun p => p.2) true).take 5 = _
    rw [sortRowsBy_asc_eq (hourGroups recs) (fun p => p.2) (fun p => p.1)
      hn hlen (hourGroups_pairwise recs)]
    rfl

/-- Witness: best_worst_hours_stable_small at c1Recs, whose two populated
hours have finite mean RMSSD. -/
theorem best_worst_hours_stable_small_witness :
    ((hourGroups c1Recs).length ≤ 16 ∧
      ∀ p ∈ hourGroups c1Recs, (p.2).isna = false) ∧
    (bestHrvHours c1Recs 5 = specBestHours c1Recs ∧
      worstHrvHours c1Recs 5 = specWorstHours c1Recs) :=
  ⟨⟨by decide, by decide⟩,
    best_worst_hours_stable_small c1Recs (by decide) (by decide)⟩

/-- C7: whenever some Monday-Friday weekday has data and every populated
workweek weekday's mean RMSSD is non-NaN, workweek difficulty emits the k
populated weekdays (1 <= k <= 5) sorted ascending by mean RMSSD (ties by
weekday), ranked 1..k in that order and labelled with exactly the first k
entries of the ordered difficulty vocabulary. -/
theorem workweek_difficulty_ranks (recs : List FeatureRecord)
    (hne : (recs.filter fun r => weekdayOf r.t < 5).isEmpty = false)
    (hn : ∀ r ∈ workweekBaseRows recs, (r.rmssd).isna = false) :
    1 ≤ (workweekBaseRows recs).length ∧
    (workweekBaseRows recs).length ≤ 5 ∧
    (workweekDifficulty recs).map WorkweekRow.difficulty_rank =
      List.range' 1 (workweekBaseRows recs).length ∧
    (workweekDifficulty recs).map WorkweekRow.difficulty_label =
      difficultyVocab.take (workweekBaseRows recs).length ∧
    (workweekDifficulty recs).map wwKey =
      ((workweekBaseRows recs).insertionSort
        (fun a b => ascTieLeW a b = true)).map wwKey := by
  have hk5 : (workweekBaseRows recs).length ≤ 5 := by
    simp only [workweekBaseRows]
    rw [List.length_map]
    exact le_trans (List.length_filter_le _ _) (by simp)
  have hcond : ¬((recs.filter fun r => weekdayOf r.t < 5).isEmpty = true) := by
    rw [hne]
    simp
  have hww : workweekDifficulty recs =
      rankAndLabel (sortRowsBy (workweekBaseRows recs)
        ((workweekBaseRows recs).map fun r => r.rmssd) true) := by
    unfold workweekDifficulty
    rw [if_neg hcond]
  have hsort := sortRowsBy_asc_eq (workweekBaseRows recs)
      (fun r => r.rmssd) (fun r => r.weekday) hn (le_trans hk5 (by omega))
      (workweekBaseRows_pairwise recs)
  have h1 : 1 ≤ (workweekBaseRows recs).length := by
    have hex : ∃ r, r ∈ recs.filter fun r => weekdayOf r.t < 5 := by
      cases hcase : recs.filter fun r => weekdayOf r.t < 5 with
      | nil =>
        rw [hcase] at hne
        simp at hne
      | cons a t =>
        exact ⟨a, List.mem_cons_self a t⟩
    obtain ⟨r, hrmem⟩ := hex
    have hw5 : weekdayOf r.t < 5 :=
      of_decide_eq_true (List.mem_filter.1 hrmem).2
    have hrw : r ∈ weekdayRecords (recs.filter fun x => weekdayOf x.t < 5)
        (weekdayOf r.t) := by
      unfold weekdayRecords
      rw [List.mem_filter]
      exact ⟨hrmem, by simp⟩
    have hwmem : weekdayOf r.t ∈ (List.range 5).filter
        fun w => !(weekdayRecords (recs.filter
          fun x => weekdayOf x.t < 5) w).isEmpty := by
      rw [List.mem_filter]
      refine ⟨List.mem_range.2 hw5, ?_⟩
      have hne2 : weekdayRecords (recs.filter fun x => weekdayOf x.t < 5)
          (weekdayOf r.t) ≠ [] := List.ne_nil_of_mem hrw
      simp [List.isEmpty_eq_false.2 hne2]
    simp only [workweekBaseRows]
    rw [List.length_map]
    exact List.length_pos.2 (List.ne_nil_of_mem hwmem)
  refine ⟨h1, hk5, ?_, ?_, ?_⟩
  · rw [hww, hsort, rankAndLabel_map_rank, List.length_insertionSort]
  · rw [hww, hsort,
      rankAndLabel_map_label _ (by rw [List.length_insertionSort]; exact hk5),
      List.length_insertionSort]
  · rw [hww, hsort, rankAndLabel_map_key]
    rfl

/-- Witness: workweek_difficulty_ranks at c7Recs, where only Monday,
Wednesday and Friday are populated. -/
theorem workweek_difficulty_ranks_witness :
    ((c7Recs.filter fun r => weekdayOf r.t < 5).isEmpty = false ∧
      ∀ r ∈ workweekBaseRows c7Recs, (r.rmssd).isna = false) ∧
    (1 ≤ (workweekBaseRows c7Recs).length ∧
      (workweekBaseRows c7Recs).length ≤ 5 ∧
      (workweekDifficulty c7Recs).map WorkweekRow.difficulty_rank =
        List.range' 1 (workweekBaseRows c7Recs).length ∧
      (workweekDifficulty c7Recs).map WorkweekRow.difficulty_label =
        difficultyVocab.take (workweekBaseRows c7Recs).length ∧
      (workweekDifficulty c7Recs).map wwKey =
        ((workweekBaseRows c7Recs).insertionSort
          (fun a b => ascTieLeW a b = true)).map wwKey) :=
  ⟨⟨by decide, by decide⟩,
    workweek_difficulty_ranks c7Recs (by decide) (by decide)⟩
